import Mathlib

/-! GeneFuse pair-end scanner (`src/pescanner.cpp`)

A shallow embedding of `PairEndScanner`:

* `producerLoop` / `producerTask` : the batching loop of `producerTask`
  (lines 202-251), as the sequence of packs handed to `producePack`;
* `scanPairEnd` : the per-pack mapping loop (lines 78-144) over an explicit
  state made of the aggregation array and a log of the calls it makes;
* `Pipeline` : the producer, the ring and the workers as a step function,
  one step per lock-protected region;
* `consumerTaskOps` / `producerTaskOps` : the lock operations of one thread,
  with the set of held locks as explicit state.

Pointers are values, `NULL` is `none`.
-/

namespace GeneFuse

/-! ## Data model -/

/-- The struct `ReadPairPack` : `data` is the `ReadPair**` array (a slot that
holds `NULL` is `none`), `count` the number of valid entries. -/
structure ReadPairPack (P : Type) where
  data : List (Option P)
  count : Nat
deriving DecidableEq, Repr

/-- The entries `data[0] .. data[count-1]` of a pack, the ones `scanPairEnd`
visits. -/
def ReadPairPack.entries {P : Type} (pack : ReadPairPack P) : List (Option P) :=
  pack.data.take pack.count

/-! ## Batch producer (`producerTask`, lines 202-251) -/

/-- The `while(true)` loop of `producerTask` (lines 209-242). The reader is the
list of pairs it will still return (`reader.read()` gives `NULL` when the list
is empty), `data` and `count` are the local variables of the same name, and the
result is the sequence of packs passed to `producePack`, in call order. The
throttle loop of lines 236-240 only delays the producer and is not part of
this sequential view. -/
def producerLoop {P : Type} (PACK_SIZE : Nat) :
    List P → List (Option P) → Nat → List (ReadPairPack P)
  | [], data, count =>
      -- the last pack
      if count > 0 then [{ data := data, count := count }] else []
  | read :: reader, data, count =>
      let data := data.set count (some read)
      let count := count + 1
      -- a full pack
      if count = PACK_SIZE then
        { data := data, count := count } ::
          producerLoop PACK_SIZE reader (List.replicate PACK_SIZE none) 0
      else
        producerLoop PACK_SIZE reader data count

/-- The packs `producerTask` hands to `producePack` for a given source: `data`
starts as `PACK_SIZE` zeroed slots (lines 205-206) and `count` as 0. -/
def producerTask {P : Type} (PACK_SIZE : Nat) (source : List P) : List (ReadPairPack P) :=
  producerLoop PACK_SIZE source (List.replicate PACK_SIZE none) 0


/-! ## Scan worker (`pushMatch`, `scanPairEnd`, lines 72-144) -/

/-- The class `ReadPair` as `scanPairEnd` uses it: the two reads `mLeft` and
`mRight` it owns. -/
structure ReadPair (Read : Type) where
  mLeft : Read
  mRight : Read
deriving DecidableEq, Repr

/-- The three mutexes of the scanner: `mRepo.mtx`, `mRepo.readCounterMtx` and
`mFusionMtx`. -/
inductive Lock where
  | mtx
  | readCounterMtx
  | fusionMtx
deriving DecidableEq, Repr

/-- The collaborators of `scanPairEnd`, none of them defined in
`pescanner.cpp`: `ReadPair::fastMerge` (`NULL` is `none`),
`Read::reverseComplement` and `FusionMapper::mapRead` (`NULL` is `none`).
`Read` and `M` are the types of `Read*` and `Match*` values. -/
structure Collaborators (Read M : Type) where
  fastMerge : ReadPair Read → Option Read
  reverseComplement : Read → Read
  mapRead : Read → Option M

/-- What `scanPairEnd` and `pushMatch` do to the outside, one constructor per
kind of statement: a call of the mapper, the two `Match` mutators, the lock and
unlock of a mutex, the `push_back` on `fusionMatches[i]`, and the `delete`
statements. -/
inductive Call (Read M : Type) where
  | mapRead (r : Read)
  | addOriginalPair (m : M) (pair : ReadPair Read)
  | setReversed (m : M) (flag : Bool)
  | lock (l : Lock)
  | unlock (l : Lock)
  | push_back (i : Nat) (m : M)
  | deletePair (pair : ReadPair Read)
  | deleteRead (r : Read)
  | deleteData
  | deletePack
deriving DecidableEq, Repr

/-- The state `scanPairEnd` runs on: the array `fusionMatches` (one list per
fusion reference), the log of calls made so far, and `fault`, set once the run
has left defined behaviour (an index outside `fusionMatches`, a `NULL` pair). -/
structure ScanState (Read M : Type) where
  fusionMatches : List (List M)
  calls : List (Call Read M)
  fault : Bool
deriving DecidableEq, Repr

/-- Append one call to the log. -/
def ScanState.call {Read M : Type} (s : ScanState Read M) (c : Call Read M) :
    ScanState Read M :=
  { s with calls := s.calls ++ [c] }

/-- The method `pushMatch` (lines 72-76): under `mFusionMtx`,
`fusionMatches[i].push_back(m)`. -/
def pushMatch {Read M : Type} (i : Nat) (m : M) (s : ScanState Read M) : ScanState Read M :=
  let s := s.call (.lock .fusionMtx)
  let s : ScanState Read M :=
    { fusionMatches := s.fusionMatches.set i (s.fusionMatches.getD i [] ++ [m])
      calls := s.calls ++ [Call.push_back i m]
      fault := s.fault || decide (s.fusionMatches.length ≤ i) }
  s.call (.unlock .fusionMtx)

/-- The body of the `for` loop of `scanPairEnd` (lines 80-137) for one pair.
The merged branch ends in `continue` (line 105), so it returns before the
`delete` statements of lines 130-137. -/
def scanPair {Read M : Type} (c : Collaborators Read M) (pair : ReadPair Read)
    (s : ScanState Read M) : ScanState Read M :=
  let r1 := pair.mLeft
  let r2 := pair.mRight
  let merged := c.fastMerge pair
  match merged with
  | some merged =>
    -- lines 88, 94-105
    let mergedRC := c.reverseComplement merged
    let s := s.call (.mapRead merged)
    let s := match c.mapRead merged with
      | some matchMerged => pushMatch 0 matchMerged (s.call (.addOriginalPair matchMerged pair))
      | none => s
    let s := s.call (.mapRead mergedRC)
    let s := match c.mapRead mergedRC with
      | some matchMergedRC =>
        pushMatch 0 matchMergedRC (s.call (.addOriginalPair matchMergedRC pair))
      | none => s
    s
  | none =>
    -- lines 90-91, 107-137
    let rcr1 := c.reverseComplement r1
    let rcr2 := c.reverseComplement r2
    let s := s.call (.mapRead r1)
    let s := match c.mapRead r1 with
      | some matchR1 => pushMatch 0 matchR1 (s.call (.addOriginalPair matchR1 pair))
      | none => s
    let s := s.call (.mapRead r2)
    let s := match c.mapRead r2 with
      | some matchR2 => pushMatch 0 matchR2 (s.call (.addOriginalPair matchR2 pair))
      | none => s
    let s := s.call (.mapRead rcr1)
    let s := match c.mapRead rcr1 with
      | some matchRcr1 =>
        pushMatch 0 matchRcr1
          ((s.call (.addOriginalPair matchRcr1 pair)).call (.setReversed matchRcr1 true))
      | none => s
    let s := s.call (.mapRead rcr2)
    let s := match c.mapRead rcr2 with
      | some matchRcr2 =>
        pushMatch 0 matchRcr2
          ((s.call (.addOriginalPair matchRcr2 pair)).call (.setReversed matchRcr2 true))
      | none => s
    let s := s.call (.deletePair pair)
    -- `merged` is `NULL` here, so line 131 takes its `else`
    let s := (s.call (.deleteRead rcr1)).call (.deleteRead rcr2)
    s

/-- One pass of the `for` loop of `scanPairEnd` at index `p`: `pack->data[p]`
is read and, when it is a pair, `scanPair` runs on it; a `NULL` entry is
dereferenced at line 81. -/
def scanIndex {Read M : Type} (c : Collaborators Read M) (pack : ReadPairPack (ReadPair Read))
    (s : ScanState Read M) (p : Nat) : ScanState Read M :=
  match pack.data.getD p none with
  | some pair => scanPair c pair s
  | none => { s with fault := true }

/-- The method `scanPairEnd` (lines 78-144): the loop over `p < pack->count`,
then `delete pack->data; delete pack;`. -/
def scanPairEnd {Read M : Type} (c : Collaborators Read M) (pack : ReadPairPack (ReadPair Read))
    (s : ScanState Read M) : ScanState Read M :=
  let s := (List.range pack.count).foldl (scanIndex c pack) s
  (s.call .deleteData).call .deletePack

/-- The calls made between state `s` and a later state `t`. -/
def callsSince {Read M : Type} (s t : ScanState Read M) : List (Call Read M) :=
  t.calls.drop s.calls.length

/-- The reads the mapper was invoked on, in call order. -/
def mappedReads {Read M : Type} : List (Call Read M) → List Read
  | [] => []
  | .mapRead r :: cs => r :: mappedReads cs
  | _ :: cs => mappedReads cs

/-- The `push_back` statements of a log: index and match, in call order. -/
def pushed {Read M : Type} : List (Call Read M) → List (Nat × M)
  | [] => []
  | .push_back i m :: cs => (i, m) :: pushed cs
  | _ :: cs => pushed cs

/-- The `setReversed` calls of a log: match and flag, in call order. -/
def reversedTags {Read M : Type} : List (Call Read M) → List (M × Bool)
  | [] => []
  | .setReversed m flag :: cs => (m, flag) :: reversedTags cs
  | _ :: cs => reversedTags cs

/-- The `delete` statements of a log, in call order. -/
def released {Read M : Type} : List (Call Read M) → List (Call Read M)
  | [] => []
  | .deletePair pair :: cs => .deletePair pair :: released cs
  | .deleteRead r :: cs => .deleteRead r :: released cs
  | .deleteData :: cs => .deleteData :: released cs
  | .deletePack :: cs => .deletePack :: released cs
  | _ :: cs => released cs

/-- A lock operation of a thread: `lock()` (or the constructor of a
`unique_lock`) and `unlock()`. -/
inductive LockOp where
  | acquire (l : Lock)
  | release (l : Lock)
deriving DecidableEq, Repr

/-- The lock operations of a log, in call order. -/
def lockOps {Read M : Type} : List (Call Read M) → List LockOp
  | [] => []
  | .lock l :: cs => .acquire l :: lockOps cs
  | .unlock l :: cs => .release l :: lockOps cs
  | _ :: cs => lockOps cs

/-- Specification of one mapping attempt for `pair` on read `r`: the mapper is
invoked on `r`; when it returns a match, the match is first annotated with the
pair, then tagged reversed if `tag` is set, then appended to list 0 under the
aggregation lock. An attempt records 0 or 1 match. -/
def attemptSpec {Read M : Type} (c : Collaborators Read M) (pair : ReadPair Read) (r : Read)
    (tag : Bool) : List (Call Read M) :=
  .mapRead r ::
    match c.mapRead r with
    | none => []
    | some m =>
      [.addOriginalPair m pair] ++ (if tag then [.setReversed m true] else []) ++
        [.lock .fusionMtx, .push_back 0 m, .unlock .fusionMtx]

/-- The state before the first pack is scanned: `n` empty match lists (lines
34-37 of `scan`), nothing logged. -/
def ScanState.init (Read M : Type) (n : Nat) : ScanState Read M :=
  { fusionMatches := List.replicate n [], calls := [], fault := false }

/-- The calls `scanPair` makes for one pair, written as a list: two attempts
and no `delete` when the merge succeeded, four attempts followed by the three
`delete` statements of lines 130-136 when it failed. -/
def pairCalls {Read M : Type} (c : Collaborators Read M) (pair : ReadPair Read) :
    List (Call Read M) :=
  match c.fastMerge pair with
  | some merged =>
    attemptSpec c pair merged false ++ attemptSpec c pair (c.reverseComplement merged) false
  | none =>
    attemptSpec c pair pair.mLeft false
      ++ attemptSpec c pair pair.mRight false
      ++ attemptSpec c pair (c.reverseComplement pair.mLeft) true
      ++ attemptSpec c pair (c.reverseComplement pair.mRight) true
      ++ [.deletePair pair, .deleteRead (c.reverseComplement pair.mLeft),
          .deleteRead (c.reverseComplement pair.mRight)]

/-- A pack whose `count` entries all exist and are pairs, as `producerTask`
builds them. -/
def ReadPairPack.WellFormed {P : Type} (pack : ReadPairPack P) : Prop :=
  pack.count ≤ pack.data.length ∧ ∀ e ∈ pack.entries, e ≠ none

/-- The pairs of a pack, in index order. -/
def ReadPairPack.pairs {P : Type} (pack : ReadPairPack P) : List P :=
  pack.entries.filterMap id

/-- Several packs scanned one after the other on the same aggregation array. -/
def scanPacks {Read M : Type} (c : Collaborators Read M)
    (packs : List (ReadPairPack (ReadPair Read))) (s : ScanState Read M) : ScanState Read M :=
  packs.foldl (fun s pack => scanPairEnd c pack s) s

/-- Append `ms` to the first list of the array, if there is one. -/
def appendToFirst {M : Type} : List (List M) → List M → List (List M)
  | [], _ => []
  | l :: rest, ms => (l ++ ms) :: rest

/-- The calls `scanPairEnd` makes for a well-formed pack, written as a list:
those of its pairs in order, then `delete pack->data; delete pack;`. -/
def packCalls {Read M : Type} (c : Collaborators Read M)
    (pack : ReadPairPack (ReadPair Read)) : List (Call Read M) :=
  (pack.pairs.map (pairCalls c)).flatten ++ [.deleteData, .deletePack]

/-- Sample collaborators over numbered reads and matches: a pair merges when
its two reads are equal (the merged read is `mLeft + 500`), the reverse
complement of read `r` is `r + 1000`, and the mapper matches the odd reads. -/
def sampleCollaborators : Collaborators Nat Nat :=
  { fastMerge := fun pair => if pair.mLeft = pair.mRight then some (pair.mLeft + 500) else none
    reverseComplement := fun r => r + 1000
    mapRead := fun r => if r % 2 = 1 then some r else none }

/-- A pack of two pairs: the first one merges, the second one does not. -/
def samplePack : ReadPairPack (ReadPair Nat) :=
  { data := [some { mLeft := 5, mRight := 5 }, some { mLeft := 1, mRight := 2 }, none]
    count := 2 }

/-! ## The pipeline as a step function

The producer thread, the ring `mRepo` and the consumer threads, with one step
per lock-protected region of `producePack`, `consumePack`, `producerTask` and
`consumerTask`. A thread that cannot move (it waits on a condition variable or
a mutex, or it has returned) has no step. A `wait` returns only after a
`notify_all` on its condition variable. -/

/-- The type of `mRepo.writePos` and `mRepo.readPos`. The struct is declared in
`pescanner.h`, so the type is a parameter: a signed integer type wide enough
for the cursors, or an unsigned one of the given width. -/
inductive CursorType where
  | signed
  | unsigned (bits : Nat)
deriving DecidableEq, Repr

/-- The value of the expression `mRepo.writePos - mRepo.readPos` (line 236). -/
def cursorDiff : CursorType → Nat → Nat → Int
  | .signed, writePos, readPos => (writePos : Int) - (readPos : Int)
  | .unsigned bits, writePos, readPos =>
    ((writePos : Int) - (readPos : Int)) % ((2 ^ bits : Nat) : Int)

/-- The constants of the run: the ring capacity, the batch size, the soft
limit and the cursor type, none of them defined in `pescanner.cpp`, and the
number of consumer threads `mThreadNum`. -/
structure Config where
  PACK_NUM_LIMIT : Nat
  PACK_SIZE : Nat
  PACK_IN_MEM_LIMIT : Nat
  cursor : CursorType
  mThreadNum : Nat
deriving DecidableEq, Repr

/-- Where the producer thread stands in `producerTask`. -/
inductive ProducerPc (P : Type) where
  /-- at `reader.read()`, line 210 -/
  | reading
  /-- in `producePack(pack)`, about to take `mRepo.mtx` and test the ring (line
  161); `last` tells the call of line 217 from the one of line 229 -/
  | producePack (pack : ReadPairPack P) (last : Bool)
  /-- in `mRepo.repoNotFull.wait(lock)`, line 164 -/
  | waitNotFull (pack : ReadPairPack P) (last : Bool)
  /-- at the test of the throttle loop, line 236 -/
  | throttle
  /-- about to take `mRepo.readCounterMtx`, line 244 -/
  | finish
  /-- returned -/
  | done
deriving DecidableEq, Repr

/-- Where a consumer thread stands in `consumerTask`. The flag tells whether it
holds `mRepo.readCounterMtx` (it does when `consumePack` was called at line
262). -/
inductive ConsumerPc (P : Type) where
  /-- about to take `mRepo.readCounterMtx`, line 256 -/
  | loopHead
  /-- in `consumePack`, about to take `mRepo.mtx` and test the ring (lines 179
  and 181) -/
  | consumePack (holdsCounterMtx : Bool)
  /-- in `mRepo.repoNotEmpty.wait(lock)`, line 186 -/
  | waitNotEmpty (holdsCounterMtx : Bool)
  /-- past the `unlock` of line 191, with the slot content in `data` -/
  | scanning (data : Option (ReadPairPack P)) (holdsCounterMtx : Bool)
  /-- left the loop by the `break` of line 259 -/
  | exited
deriving DecidableEq, Repr

/-- Whether a consumer at this point holds `mRepo.readCounterMtx`. -/
def ConsumerPc.holdsCounterMtx {P : Type} : ConsumerPc P → Bool
  | .consumePack h => h
  | .waitNotEmpty h => h
  | .scanning _ h => h
  | _ => false

/-- The shared state, the local variables of the threads, and the history of
the ring: the packs enqueued, the slot contents dequeued and the slot indices
read, each in order. -/
structure Pipeline (P : Type) where
  packBuffer : List (Option (ReadPairPack P))
  writePos : Nat
  readPos : Nat
  mProduceFinished : Bool
  producer : ProducerPc P
  reader : List P
  data : List (Option P)
  count : Nat
  slept : Nat
  consumers : List (ConsumerPc P)
  enqueued : List (ReadPairPack P)
  dequeued : List (Option (ReadPairPack P))
  slotsRead : List Nat
deriving DecidableEq, Repr

/-- The state after `initPackRepository` (lines 146-153) and the start of the
threads (lines 40-45): a zeroed buffer, both cursors at 0, the producer at its
first `read` with a zeroed `data`, every consumer at the head of its loop. -/
def Pipeline.init {P : Type} (cfg : Config) (source : List P) : Pipeline P :=
  { packBuffer := List.replicate cfg.PACK_NUM_LIMIT none
    writePos := 0
    readPos := 0
    mProduceFinished := false
    producer := .reading
    reader := source
    data := List.replicate cfg.PACK_SIZE none
    count := 0
    slept := 0
    consumers := List.replicate cfg.mThreadNum .loopHead
    enqueued := []
    dequeued := []
    slotsRead := [] }

/-- Nobody holds `mRepo.readCounterMtx`. -/
def Pipeline.counterMtxFree {P : Type} (s : Pipeline P) : Bool :=
  s.consumers.all (fun pc => !pc.holdsCounterMtx)

/-- The call `mRepo.repoNotEmpty.notify_all()` : every consumer in `wait` goes back
to the test of line 181. -/
def notifyNotEmpty {P : Type} (consumers : List (ConsumerPc P)) : List (ConsumerPc P) :=
  consumers.map fun pc =>
    match pc with
    | .waitNotEmpty h => .consumePack h
    | pc => pc

/-- The call `mRepo.repoNotFull.notify_all()` : a producer in `wait` goes back to
the test of line 162. -/
def notifyNotFull {P : Type} : ProducerPc P → ProducerPc P
  | .waitNotFull pack last => .producePack pack last
  | pc => pc

/-- One step of the producer thread. -/
def producerStep {P : Type} (cfg : Config) (s : Pipeline P) : Option (Pipeline P) :=
  match s.producer with
  | .reading =>
    -- lines 210-229, up to the call of producePack
    match s.reader with
    | [] =>
      if s.count > 0 then
        some { s with producer := .producePack { data := s.data, count := s.count } true }
      else
        some { s with producer := .finish, data := [] }
    | read :: reader =>
      let data := s.data.set s.count (some read)
      let count := s.count + 1
      if count = cfg.PACK_SIZE then
        some { s with reader := reader, data := data, count := count,
                      producer := .producePack { data := data, count := count } false }
      else
        some { s with reader := reader, data := data, count := count }
  | .producePack pack last =>
    -- lines 161-174, under mRepo.mtx
    if (s.writePos + 1) % cfg.PACK_NUM_LIMIT = s.readPos then
      some { s with producer := .waitNotFull pack last }
    else
      let packBuffer := s.packBuffer.set s.writePos (some pack)
      let writePos := s.writePos + 1
      let writePos := if writePos = cfg.PACK_NUM_LIMIT then 0 else writePos
      some { s with
        packBuffer := packBuffer
        writePos := writePos
        consumers := notifyNotEmpty s.consumers
        enqueued := s.enqueued ++ [pack]
        -- line 219, or lines 231-234
        data := if last then [] else List.replicate cfg.PACK_SIZE none
        count := if last then s.count else 0
        producer := if last then .finish else .throttle }
  | .waitNotFull _ _ => none
  | .throttle =>
    -- lines 236-240
    if cursorDiff cfg.cursor s.writePos s.readPos > (cfg.PACK_IN_MEM_LIMIT : Int) then
      some { s with slept := s.slept + 1 }
    else
      some { s with producer := .reading }
  | .finish =>
    -- lines 244-246, under mRepo.readCounterMtx
    if s.counterMtxFree then
      some { s with mProduceFinished := true, producer := .done }
    else none
  | .done => none

/-- One step of consumer thread `i`. -/
def consumerStep {P : Type} (cfg : Config) (s : Pipeline P) (i : Nat) : Option (Pipeline P) :=
  match s.consumers[i]? with
  | none => none
  | some .loopHead =>
    -- lines 256-266, under mRepo.readCounterMtx, up to the call of consumePack
    if s.counterMtxFree then
      if s.mProduceFinished && decide (s.writePos = s.readPos) then
        some { s with consumers := s.consumers.set i .exited }
      else if s.mProduceFinished then
        some { s with consumers := s.consumers.set i (.consumePack true) }
      else
        some { s with consumers := s.consumers.set i (.consumePack false) }
    else none
  | some (.consumePack h) =>
    -- lines 179-191, under mRepo.mtx
    if s.writePos = s.readPos then
      if s.mProduceFinished then
        -- return; line 263 then releases mRepo.readCounterMtx if it is held
        some { s with consumers := s.consumers.set i .loopHead }
      else
        some { s with consumers := s.consumers.set i (.waitNotEmpty h) }
    else
      let data := (s.packBuffer.getD s.readPos none)
      some { s with
        readPos := s.readPos + 1
        consumers := s.consumers.set i (.scanning data h)
        dequeued := s.dequeued ++ [data]
        slotsRead := s.slotsRead ++ [s.readPos] }
  | some (.waitNotEmpty _) => none
  | some (.scanning _ _) =>
    -- lines 193-199, then back to the loop of consumerTask (line 263 releases
    -- mRepo.readCounterMtx if it is held)
    some { s with
      readPos := if s.readPos ≥ cfg.PACK_NUM_LIMIT then 0 else s.readPos
      producer := notifyNotFull s.producer
      consumers := s.consumers.set i .loopHead }
  | some .exited => none

/-- The threads of the run. -/
inductive Thread where
  | producer
  | consumer (i : Nat)
deriving DecidableEq, Repr

/-- One step of the chosen thread, `none` when it cannot move. -/
def Pipeline.step {P : Type} (cfg : Config) (s : Pipeline P) : Thread → Option (Pipeline P)
  | .producer => producerStep cfg s
  | .consumer i => consumerStep cfg s i

/-- Run a schedule: the listed threads take one step each, in order. The result
is `none` when a listed thread cannot move at its turn. -/
def Pipeline.run {P : Type} (cfg : Config) : List Thread → Pipeline P → Option (Pipeline P)
  | [], s => some s
  | t :: ts, s =>
    match s.step cfg t with
    | none => none
    | some s => Pipeline.run cfg ts s

/-- No thread can move. -/
def Pipeline.stuck {P : Type} (cfg : Config) (s : Pipeline P) : Bool :=
  (s.step cfg .producer).isNone
    && (List.range s.consumers.length).all (fun i => (s.step cfg (.consumer i)).isNone)

/-- The number of packs in flight: enqueued and not yet dequeued. -/
def Pipeline.inFlight {P : Type} (s : Pipeline P) : Int :=
  (s.enqueued.length : Int) - (s.dequeued.length : Int)

/-- The dequeued packs are the first packs enqueued, in the same order. -/
def Pipeline.fifo {P : Type} [DecidableEq P] (s : Pipeline P) : Bool :=
  decide (s.dequeued = (s.enqueued.take s.dequeued.length).map some)

/-! ### Sample runs of the pipeline -/

/-- What a run is observed by: the positions of the two cursors, the counts of
each enqueued pack, the counts of each dequeued slot content (`none` for a slot
that held no pack), the slot indices read, and whether the dequeued packs are
the first enqueued ones. The sample sources have one pair per pack or number
their pairs, so a count or first entry identifies a pack. -/
structure RingView where
  writePos : Nat
  readPos : Nat
  enqueued : List (Option Nat)
  dequeued : List (Option (Option Nat))
  slotsRead : List Nat
  fifo : Bool
deriving DecidableEq, Repr

/-- The first pair of a pack, which names the pack in the sample runs. -/
def ReadPairPack.first {P : Type} (pack : ReadPairPack P) : Option P :=
  (pack.data.getD 0 none)

/-- The view of a state of a pipeline over numbered pairs. -/
def Pipeline.view (s : Pipeline Nat) : RingView :=
  { writePos := s.writePos
    readPos := s.readPos
    enqueued := s.enqueued.map ReadPairPack.first
    dequeued := s.dequeued.map (Option.map ReadPairPack.first)
    slotsRead := s.slotsRead
    fifo := s.fifo }

/-- A ring of two slots with soft limit 1. -/
def smallRing (PACK_SIZE : Nat) (cursor : CursorType) (mThreadNum : Nat) : Config :=
  { PACK_NUM_LIMIT := 2, PACK_SIZE := PACK_SIZE, PACK_IN_MEM_LIMIT := 1, cursor := cursor,
    mThreadNum := mThreadNum }

/-- What the shutdown of a run is observed by: the producer has returned,
`mProduceFinished`, the ring is empty (`writePos == readPos`), which consumers
sit in `repoNotEmpty.wait`, and whether no thread has a step. -/
structure ShutdownView where
  producerReturned : Bool
  mProduceFinished : Bool
  ringEmpty : Bool
  waiting : List Bool
  stuck : Bool
deriving DecidableEq, Repr

/-- The shutdown view of a state. -/
def Pipeline.shutdownView {P : Type} (cfg : Config) (s : Pipeline P) : ShutdownView :=
  { producerReturned := match s.producer with
      | .done => true
      | _ => false
    mProduceFinished := s.mProduceFinished
    ringEmpty := decide (s.writePos = s.readPos)
    waiting := s.consumers.map fun pc =>
      match pc with
      | .waitNotEmpty _ => true
      | _ => false
    stuck := s.stuck cfg }

/-- Two consumers, two packs: the producer enqueues pack 10, consumer 0 takes it
and finishes its scan, the producer enqueues pack 11, consumer 0 takes it
(`readPos` is now 2, the capacity) and is still scanning when consumer 1 enters
`consumePack`. -/
def overrunSchedule : List Thread :=
  [.producer, .producer, .consumer 0, .consumer 0, .consumer 0,
   .producer, .producer, .producer, .consumer 0, .consumer 0,
   .consumer 1, .consumer 1]

/-- One consumer, five packs: consumer 0 takes packs 10 and 11 and is still
scanning pack 11 (`readPos` is 2, not yet wrapped) while the producer enqueues
packs 12, 13 and 14; then the consumer wraps `readPos` and takes the next
pack. -/
def overwriteSchedule : List Thread :=
  [.producer, .producer, .consumer 0, .consumer 0, .consumer 0,
   .producer, .producer, .producer, .consumer 0, .consumer 0,
   .producer, .producer, .producer,
   .producer, .producer, .producer,
   .producer, .producer, .producer,
   .consumer 0, .consumer 0, .consumer 0]

/-- No pair at all: the consumer enters `consumePack` and waits before the
producer has set `mProduceFinished`. -/
def lostWakeupEmpty : List Thread :=
  [.consumer 0, .consumer 0, .producer, .producer]

/-- One pair, batches of two: the consumer takes the only pack, comes back and
waits before the producer has set `mProduceFinished`. -/
def lostWakeupPartial : List Thread :=
  [.producer, .producer, .producer, .consumer 0, .consumer 0, .consumer 0,
   .consumer 0, .consumer 0, .producer]

/-- Two pairs, batches of two, two consumers: consumer 0 takes the only pack,
then both consumers wait before the producer has set `mProduceFinished`. -/
def lostWakeupFull : List Thread :=
  [.producer, .producer, .producer, .consumer 0, .consumer 0, .consumer 0,
   .consumer 0, .consumer 0, .consumer 1, .consumer 1,
   .producer, .producer, .producer]

/-- A configuration with one pair per pack. -/
def unitPacks (PACK_NUM_LIMIT PACK_IN_MEM_LIMIT : Nat) (cursor : CursorType) : Config :=
  { PACK_NUM_LIMIT := PACK_NUM_LIMIT, PACK_SIZE := 1, PACK_IN_MEM_LIMIT := PACK_IN_MEM_LIMIT,
    cursor := cursor, mThreadNum := 1 }

/-- Three packs through a ring of three slots with soft limit 1: two packs are
enqueued, the consumer takes one, the third pack is enqueued and the write
cursor wraps to 0. -/
def wrapSchedule : List Thread :=
  [.producer, .producer, .producer, .producer, .producer,
   .consumer 0, .consumer 0, .producer, .producer, .producer]

/-- Seven packs through a ring of five slots with soft limit 1: the consumer
takes three packs while the producer enqueues five (the write cursor is back
at 0), then the producer enqueues the sixth and stands at the `producePack`
call for the seventh. -/
def unthrottledSchedule : List Thread :=
  [.producer, .producer, .producer, .producer, .producer,
   .consumer 0, .consumer 0, .consumer 0,
   .producer, .producer, .producer,
   .consumer 0, .consumer 0, .consumer 0,
   .producer, .producer, .producer,
   .consumer 0, .consumer 0, .consumer 0,
   .producer, .producer, .producer,
   .producer, .producer, .producer,
   .producer, .producer]

/-! ## Lock discipline of one thread

The lock operations a thread performs, in program order, with the values it
reads from the shared state given as observations; the set of held locks is
folded over them. A `wait` on a condition variable releases the mutex and takes
it again when the thread is woken. -/

/-- The locks held after one more lock operation. -/
def applyLockOp (held : List Lock) : LockOp → List Lock
  | .acquire l => l :: held
  | .release l => held.erase l

/-- The locks held after each operation of `ops` in turn, starting from `held`. -/
def heldAfter : List Lock → List LockOp → List (List Lock)
  | _, [] => []
  | held, op :: ops => applyLockOp held op :: heldAfter (applyLockOp held op) ops

/-- The locks held once all of `ops` are done. -/
def finalHeld (held : List Lock) (ops : List LockOp) : List Lock :=
  ops.foldl applyLockOp held

/-- What one call of `consumePack` reads: at each test of its loop the values of
`mRepo.writePos == mRepo.readPos` (line 181) and `mProduceFinished` (line 182),
and the slot content `data` of line 189. When the tests run out the thread has
not come further (it is still in `wait`, or was not scheduled again). -/
structure ConsumeObs (Read : Type) where
  tests : List (Bool × Bool)
  data : ReadPairPack (ReadPair Read)

/-- The loop of `consumePack` (lines 181-187) and what follows it (lines
189-193), entered with `mRepo.mtx` held: the lock operations, and whether the
call returned. -/
def consumeLoopOps {Read M : Type} (c : Collaborators Read M)
    (data : ReadPairPack (ReadPair Read)) : List (Bool × Bool) → List LockOp × Bool
  | [] => ([], false)
  | (true, true) :: _ =>
    -- lines 183-184
    ([.release .mtx], true)
  | (true, false) :: tests =>
    -- line 186
    let rest := consumeLoopOps c data tests
    (.release .mtx :: .acquire .mtx :: rest.1, rest.2)
  | (false, _) :: _ =>
    -- lines 189-193
    (.release .mtx :: lockOps (scanPairEnd c data (ScanState.init Read M 0)).calls, true)

/-- The method `consumePack` (lines 177-200): the lock operations, and whether
the call returned. -/
def consumePackOps {Read M : Type} (c : Collaborators Read M) (obs : ConsumeObs Read) :
    List LockOp × Bool :=
  let rest := consumeLoopOps c obs.data obs.tests
  (.acquire .mtx :: rest.1, rest.2)

/-- What one pass of the loop of `consumerTask` reads: `mProduceFinished` and
`mRepo.writePos == mRepo.readPos` at line 257, then what `consumePack` reads. -/
structure IterationObs (Read : Type) where
  mProduceFinished : Bool
  ringEmpty : Bool
  consume : ConsumeObs Read

/-- The method `consumerTask` (lines 253-269): the lock operations of the thread
over the passes of its loop that the observations describe. -/
def consumerTaskOps {Read M : Type} (c : Collaborators Read M) :
    List (IterationObs Read) → List LockOp
  | [] => []
  | it :: rest =>
    .acquire .readCounterMtx ::
      if it.mProduceFinished && it.ringEmpty then
        -- lines 258-259
        [.release .readCounterMtx]
      else if it.mProduceFinished then
        -- lines 262-263
        let call := consumePackOps c it.consume
        call.1 ++ (if call.2 then .release .readCounterMtx :: consumerTaskOps c rest else [])
      else
        -- lines 265-266
        let call := consumePackOps c it.consume
        .release .readCounterMtx :: (call.1 ++ (if call.2 then consumerTaskOps c rest else []))

/-- The method `producePack` (lines 160-175) when its loop waits `waits` times. -/
def producePackOps (waits : Nat) : List LockOp :=
  .acquire .mtx ::
    ((List.replicate waits [LockOp.release .mtx, LockOp.acquire .mtx]).flatten
      ++ [.release .mtx])

/-- The method `producerTask` (lines 202-251): one `producePack` per pack, with
the number of waits of each, then lines 244-246. -/
def producerTaskOps (waits : List Nat) : List LockOp :=
  (waits.map producePackOps).flatten
    ++ [.acquire .readCounterMtx, .release .readCounterMtx]

/-- One pass of `consumerTask` taken when production is finished and the ring
is not empty: `consumePack` finds the sample pack. -/
def finishedPass : IterationObs Nat :=
  { mProduceFinished := true
    ringEmpty := false
    consume := { tests := [(false, true)], data := samplePack } }

/-- One pass of `consumerTask` taken while production is going on: the ring is
empty at first, `consumePack` waits once and then finds the sample pack. -/
def unfinishedPass : IterationObs Nat :=
  { mProduceFinished := false
    ringEmpty := true
    consume := { tests := [(true, false), (false, false)], data := samplePack } }

/-- One pair, one consumer: the producer enqueues the pack and returns before
the consumer starts, so the consumer sees `mProduceFinished` set and the ring
not empty. -/
def lateConsumerSchedule : List Thread :=
  [.producer, .producer, .producer, .producer, .producer, .consumer 0, .consumer 0]

/-! ## Batch producer: proofs -/

theorem take_set_succ {P : Type} (data : List (Option P)) (count : Nat) (x : Option P)
    (h : count < data.length) :
    (data.set count x).take (count + 1) = data.take count ++ [x] := by
  induction data generalizing count with
  | nil => simp at h
  | cons a t ih =>
    cases count with
    | zero => simp
    | succ n =>
      simp only [List.length_cons, Nat.add_lt_add_iff_right] at h
      simp [List.set, ih n h]

theorem producerLoop_spec {P : Type} (B : Nat) (hB : 1 ≤ B) :
    ∀ (reader : List P) (data : List (Option P)) (count : Nat),
      count < B → data.length = B →
      (producerLoop B reader data count).length = (count + reader.length + (B - 1)) / B
      ∧ (∀ p ∈ producerLoop B reader data count, 1 ≤ p.count ∧ p.count ≤ B ∧ p.data.length = B)
      ∧ (∀ p ∈ (producerLoop B reader data count).dropLast, p.count = B)
      ∧ ((producerLoop B reader data count).map ReadPairPack.entries).flatten
          = data.take count ++ reader.map some := by
  intro reader
  induction reader with
  | nil =>
    intro data count hc hd
    by_cases h0 : count > 0
    · simp only [producerLoop, h0, if_true]
      refine ⟨?_, ?_, ?_, ?_⟩
      · simp
        have : count + (B - 1) = B + (count - 1) := by omega
        rw [this, Nat.add_div_left _ (by omega), Nat.div_eq_of_lt (by omega)]
      · intro p hp
        simp at hp
        subst hp
        exact ⟨h0, by simp; omega, hd⟩
      · simp
      · simp [ReadPairPack.entries]
    · have hz : count = 0 := by omega
      subst hz
      simp [producerLoop]
      exact (Nat.div_eq_of_lt (by omega)).symm
  | cons read rest ih =>
    intro data count hc hd
    by_cases hfull : count + 1 = B
    · obtain ⟨h1, h2, h3, h4⟩ := ih (List.replicate B none) 0 (by omega) (by simp)
      simp only [producerLoop, hfull, if_true]
      refine ⟨?_, ?_, ?_, ?_⟩
      · simp only [List.length_cons, h1]
        have : count + (rest.length + 1) + (B - 1) = (0 + rest.length + (B - 1)) + B := by omega
        rw [this, Nat.add_div_right _ (by omega)]
      · intro p hp
        rcases List.mem_cons.mp hp with hp | hp
        · subst hp; simp; omega
        · exact h2 p hp
      · intro p hp
        cases hl : producerLoop B rest (List.replicate B none) 0 with
        | nil => simp [hl] at hp
        | cons q qs =>
          rw [hl, List.dropLast_cons₂] at hp
          rcases List.mem_cons.mp hp with hp | hp
          · subst hp; rfl
          · exact h3 p (by rw [hl]; exact hp)
      · simp only [List.map_cons, List.flatten_cons, h4]
        simp only [ReadPairPack.entries]
        rw [← hfull, take_set_succ data count _ (by omega)]
        simp
    · obtain ⟨h1, h2, h3, h4⟩ := ih (data.set count (some read)) (count + 1) (by omega) (by simp [hd])
      simp only [producerLoop, hfull, if_false]
      refine ⟨?_, h2, h3, ?_⟩
      · rw [h1]; simp only [List.length_cons]
        congr 1; omega
      · rw [h4, take_set_succ data count _ (by omega)]
        simp


theorem sum_count_eq_length_flatten {P : Type} (B : Nat) (packs : List (ReadPairPack P))
    (h : ∀ p ∈ packs, p.count ≤ B ∧ p.data.length = B) :
    (packs.map ReadPairPack.count).sum = (packs.map ReadPairPack.entries).flatten.length := by
  induction packs with
  | nil => simp
  | cons p ps ih =>
    have hp := h p (List.mem_cons_self _ _)
    have := ih (fun q hq => h q (List.mem_cons_of_mem _ hq))
    simp only [List.map_cons, List.sum_cons, List.flatten_cons, List.length_append, this]
    simp [ReadPairPack.entries]
    omega

/-- C1. Producer batching: for every source and every batch size
`PACK_SIZE >= 1`, the packs handed to `producePack` number `ceil(P / PACK_SIZE)`,
each has a count between 1 and `PACK_SIZE` (none is empty), every pack but the
last has count `PACK_SIZE`, the entries of the packs, concatenated in enqueue
order, are exactly the pairs of the source in order, and the counts sum to
`P`. -/
theorem producerTask_batching {P : Type} (PACK_SIZE : Nat) (hB : 1 ≤ PACK_SIZE)
    (source : List P) :
    (producerTask PACK_SIZE source).length = (source.length + (PACK_SIZE - 1)) / PACK_SIZE
    ∧ (∀ p ∈ producerTask PACK_SIZE source, 1 ≤ p.count ∧ p.count ≤ PACK_SIZE)
    ∧ (∀ p ∈ (producerTask PACK_SIZE source).dropLast, p.count = PACK_SIZE)
    ∧ ((producerTask PACK_SIZE source).map ReadPairPack.entries).flatten = source.map some
    ∧ ((producerTask PACK_SIZE source).map ReadPairPack.count).sum = source.length := by
  obtain ⟨h1, h2, h3, h4⟩ :=
    producerLoop_spec PACK_SIZE hB source (List.replicate PACK_SIZE none) 0 (by omega) (by simp)
  simp only [Nat.zero_add, List.take_zero, List.nil_append] at h1 h4
  refine ⟨h1, fun p hp => ⟨(h2 p hp).1, (h2 p hp).2.1⟩, h3, h4, ?_⟩
  unfold producerTask
  rw [sum_count_eq_length_flatten PACK_SIZE _ (fun p hp => ⟨(h2 p hp).2.1, (h2 p hp).2.2⟩), h4]
  simp

/-- Witness of C1: 7 pairs in batches of 3 give packs of sizes 3, 3 and 1, and an
empty source gives no pack. -/
theorem producerTask_batching_witness :
    1 ≤ 3
    ∧ (producerTask 3 [1, 2, 3, 4, 5, 6, 7]).map ReadPairPack.count = [3, 3, 1]
    ∧ producerTask 3 ([] : List Nat) = []
    ∧ ((producerTask 3 [1, 2, 3, 4, 5, 6, 7]).length = (7 + (3 - 1)) / 3
      ∧ (∀ p ∈ producerTask 3 [1, 2, 3, 4, 5, 6, 7], 1 ≤ p.count ∧ p.count ≤ 3)
      ∧ (∀ p ∈ (producerTask 3 [1, 2, 3, 4, 5, 6, 7]).dropLast, p.count = 3)
      ∧ ((producerTask 3 [1, 2, 3, 4, 5, 6, 7]).map ReadPairPack.entries).flatten
          = [1, 2, 3, 4, 5, 6, 7].map some
      ∧ ((producerTask 3 [1, 2, 3, 4, 5, 6, 7]).map ReadPairPack.count).sum = 7) :=
  ⟨by decide, by decide, by decide, producerTask_batching 3 (by decide) [1, 2, 3, 4, 5, 6, 7]⟩


/-! ## Scan worker: lemmas -/

section ScanLemmas

variable {Read M : Type}

theorem mappedReads_append (a b : List (Call Read M)) :
    mappedReads (a ++ b) = mappedReads a ++ mappedReads b := by
  induction a with
  | nil => rfl
  | cons x xs ih => cases x <;> simp [mappedReads, ih]

theorem pushed_append (a b : List (Call Read M)) :
    pushed (a ++ b) = pushed a ++ pushed b := by
  induction a with
  | nil => rfl
  | cons x xs ih => cases x <;> simp [pushed, ih]

theorem reversedTags_append (a b : List (Call Read M)) :
    reversedTags (a ++ b) = reversedTags a ++ reversedTags b := by
  induction a with
  | nil => rfl
  | cons x xs ih => cases x <;> simp [reversedTags, ih]

theorem released_append (a b : List (Call Read M)) :
    released (a ++ b) = released a ++ released b := by
  induction a with
  | nil => rfl
  | cons x xs ih => cases x <;> simp [released, ih]

theorem lockOps_append (a b : List (Call Read M)) :
    lockOps (a ++ b) = lockOps a ++ lockOps b := by
  induction a with
  | nil => rfl
  | cons x xs ih => cases x <;> simp [lockOps, ih]

theorem mappedReads_attemptSpec (c : Collaborators Read M) (pair : ReadPair Read) (r : Read)
    (tag : Bool) : mappedReads (attemptSpec c pair r tag) = [r] := by
  unfold attemptSpec
  cases c.mapRead r <;> cases tag <;> simp [mappedReads]

theorem pushed_attemptSpec (c : Collaborators Read M) (pair : ReadPair Read) (r : Read)
    (tag : Bool) :
    pushed (attemptSpec c pair r tag) = (c.mapRead r).toList.map (fun m => (0, m)) := by
  unfold attemptSpec
  cases c.mapRead r <;> cases tag <;> simp [pushed]

theorem reversedTags_attemptSpec (c : Collaborators Read M) (pair : ReadPair Read) (r : Read)
    (tag : Bool) :
    reversedTags (attemptSpec c pair r tag)
      = if tag then (c.mapRead r).toList.map (fun m => (m, true)) else [] := by
  unfold attemptSpec
  cases c.mapRead r <;> cases tag <;> simp [reversedTags]

theorem released_attemptSpec (c : Collaborators Read M) (pair : ReadPair Read) (r : Read)
    (tag : Bool) : released (attemptSpec c pair r tag) = [] := by
  unfold attemptSpec
  cases c.mapRead r <;> cases tag <;> simp [released]

theorem callsSince_append (s t : ScanState Read M) (l : List (Call Read M))
    (h : t.calls = s.calls ++ l) : callsSince s t = l := by
  simp [callsSince, h]

/-- The calls `scanPair` makes for a pair whose merge succeeded. -/
theorem scanPair_calls_merged (c : Collaborators Read M) (pair : ReadPair Read)
    (s : ScanState Read M) (merged : Read) (h : c.fastMerge pair = some merged) :
    (scanPair c pair s).calls
      = s.calls ++ (attemptSpec c pair merged false
          ++ attemptSpec c pair (c.reverseComplement merged) false) := by
  simp only [scanPair, h, attemptSpec]
  cases c.mapRead merged <;> cases c.mapRead (c.reverseComplement merged) <;>
    simp [pushMatch, ScanState.call]

/-- The calls `scanPair` makes for a pair whose merge failed. -/
theorem scanPair_calls_unmerged (c : Collaborators Read M) (pair : ReadPair Read)
    (s : ScanState Read M) (h : c.fastMerge pair = none) :
    (scanPair c pair s).calls
      = s.calls ++ (attemptSpec c pair pair.mLeft false
          ++ attemptSpec c pair pair.mRight false
          ++ attemptSpec c pair (c.reverseComplement pair.mLeft) true
          ++ attemptSpec c pair (c.reverseComplement pair.mRight) true
          ++ [.deletePair pair, .deleteRead (c.reverseComplement pair.mLeft),
              .deleteRead (c.reverseComplement pair.mRight)]) := by
  simp only [scanPair, h, attemptSpec]
  cases c.mapRead pair.mLeft <;> cases c.mapRead pair.mRight <;>
    cases c.mapRead (c.reverseComplement pair.mLeft) <;>
    cases c.mapRead (c.reverseComplement pair.mRight) <;>
    simp [pushMatch, ScanState.call]

end ScanLemmas


section ScanPackLemmas

variable {Read M : Type}

theorem scanPair_calls (c : Collaborators Read M) (pair : ReadPair Read)
    (s : ScanState Read M) : (scanPair c pair s).calls = s.calls ++ pairCalls c pair := by
  unfold pairCalls
  cases h : c.fastMerge pair with
  | none => simpa using scanPair_calls_unmerged c pair s h
  | some merged => simpa using scanPair_calls_merged c pair s merged h

theorem appendToFirst_nil (l : List (List M)) : appendToFirst l [] = l := by
  cases l <;> simp [appendToFirst]

theorem appendToFirst_append (l : List (List M)) (a b : List M) :
    appendToFirst (appendToFirst l a) b = appendToFirst l (a ++ b) := by
  cases l <;> simp [appendToFirst]

theorem pushed_attemptSpec_snd (c : Collaborators Read M) (pair : ReadPair Read) (r : Read)
    (tag : Bool) :
    (pushed (attemptSpec c pair r tag)).map Prod.snd = (c.mapRead r).toList := by
  rw [pushed_attemptSpec]; cases c.mapRead r <;> simp

end ScanPackLemmas

section ScanPackLemmas2

variable {Read M : Type}

theorem scanPair_agg (c : Collaborators Read M) (pair : ReadPair Read) (s : ScanState Read M)
    (hn : ∀ r m, c.mapRead r = some m → 0 < s.fusionMatches.length) :
    (scanPair c pair s).fusionMatches
        = appendToFirst s.fusionMatches ((pushed (pairCalls c pair)).map Prod.snd)
    ∧ (scanPair c pair s).fault = s.fault := by
  cases hl : s.fusionMatches with
  | nil =>
    have hnone : ∀ r, c.mapRead r = none := by
      intro r
      cases h : c.mapRead r with
      | none => rfl
      | some m => have := hn r m h; simp [hl] at this
    cases hm : c.fastMerge pair <;>
      simp [scanPair, pairCalls, attemptSpec, hnone, hm, ScanState.call, appendToFirst, hl]
  | cons l rest =>
    cases hm : c.fastMerge pair with
    | none =>
      simp only [scanPair, pairCalls, hm, pushed_append, List.map_append, pushed_attemptSpec_snd]
      cases c.mapRead pair.mLeft <;> cases c.mapRead pair.mRight <;>
        cases c.mapRead (c.reverseComplement pair.mLeft) <;>
        cases c.mapRead (c.reverseComplement pair.mRight) <;>
        simp [pushMatch, ScanState.call, hl, appendToFirst, pushed]
    | some merged =>
      simp only [scanPair, pairCalls, hm, pushed_append, List.map_append, pushed_attemptSpec_snd]
      cases c.mapRead merged <;> cases c.mapRead (c.reverseComplement merged) <;>
        simp [pushMatch, ScanState.call, hl, appendToFirst, pushed]

theorem foldl_scanPair (c : Collaborators Read M) (pairs : List (ReadPair Read)) :
    ∀ (s : ScanState Read M),
      (∀ r m, c.mapRead r = some m → 0 < s.fusionMatches.length) →
      (pairs.foldl (fun s pair => scanPair c pair s) s).calls
          = s.calls ++ (pairs.map (pairCalls c)).flatten
      ∧ (pairs.foldl (fun s pair => scanPair c pair s) s).fusionMatches
          = appendToFirst s.fusionMatches
              ((pushed (pairs.map (pairCalls c)).flatten).map Prod.snd)
      ∧ (pairs.foldl (fun s pair => scanPair c pair s) s).fault = s.fault := by
  induction pairs with
  | nil => intro s _; simp [pushed, appendToFirst_nil]
  | cons pair rest ih =>
    intro s hn
    have h1 := scanPair_agg c pair s hn
    have hlen : (scanPair c pair s).fusionMatches.length = s.fusionMatches.length := by
      rw [h1.1]; cases s.fusionMatches <;> simp [appendToFirst]
    obtain ⟨i1, i2, i3⟩ := ih (scanPair c pair s) (fun r m h => by rw [hlen]; exact hn r m h)
    simp only [List.foldl_cons, List.map_cons, List.flatten_cons]
    refine ⟨?_, ?_, ?_⟩
    · rw [i1, scanPair_calls]; simp
    · rw [i2, h1.1, appendToFirst_append, pushed_append]; simp
    · rw [i3, h1.2]

theorem foldl_range_scanIndex_aux (c : Collaborators Read M)
    (data : List (Option (ReadPair Read))) (n : Nat) :
    ∀ (k : Nat), k ≤ data.length → (∀ e ∈ data.take k, e ≠ none) →
      ∀ (s : ScanState Read M),
        (List.range k).foldl (scanIndex c { data := data, count := n }) s
          = ((data.take k).filterMap id).foldl (fun s pair => scanPair c pair s) s := by
  intro k
  induction k with
  | zero => intro _ _ s; simp
  | succ k ih =>
    intro hlen hsome s
    have hk : k < data.length := by omega
    have ih' := ih (by omega) (fun e he => hsome e (by
      rw [List.take_succ]; exact List.mem_append_left _ he))
    rw [List.range_succ, List.foldl_append, ih', List.take_succ, List.filterMap_append,
      List.foldl_append]
    have hget : data[k]? = some data[k] := List.getElem?_eq_getElem hk
    have : data[k] ≠ none := by
      apply hsome
      rw [List.take_succ, hget]
      exact List.mem_append_right _ (by simp)
    cases hd : data[k] with
    | none => exact absurd hd this
    | some pair =>
      simp [scanIndex, hget, hd, List.getD]

theorem foldl_range_scanIndex (c : Collaborators Read M) (pack : ReadPairPack (ReadPair Read))
    (hwf : pack.WellFormed) (s : ScanState Read M) :
    (List.range pack.count).foldl (scanIndex c pack) s
      = pack.pairs.foldl (fun s pair => scanPair c pair s) s := by
  obtain ⟨data, count⟩ := pack
  exact foldl_range_scanIndex_aux c data count count hwf.1 hwf.2 s

end ScanPackLemmas2

section ScanPackLemmas3

variable {Read M : Type}

theorem scanPairEnd_spec (c : Collaborators Read M) (pack : ReadPairPack (ReadPair Read))
    (hwf : pack.WellFormed) (s : ScanState Read M)
    (hn : ∀ r m, c.mapRead r = some m → 0 < s.fusionMatches.length) :
    (scanPairEnd c pack s).calls = s.calls ++ packCalls c pack
    ∧ (scanPairEnd c pack s).fusionMatches
        = appendToFirst s.fusionMatches ((pushed (packCalls c pack)).map Prod.snd)
    ∧ (scanPairEnd c pack s).fault = s.fault := by
  obtain ⟨h1, h2, h3⟩ := foldl_scanPair c pack.pairs s hn
  simp only [scanPairEnd, foldl_range_scanIndex c pack hwf, ScanState.call, packCalls]
  refine ⟨?_, ?_, h3⟩
  · rw [h1]; simp
  · rw [h2, pushed_append]; simp [pushed]

theorem appendToFirst_length (l : List (List M)) (ms : List M) :
    (appendToFirst l ms).length = l.length := by
  cases l <;> simp [appendToFirst]

theorem scanPacks_spec (c : Collaborators Read M)
    (packs : List (ReadPairPack (ReadPair Read))) :
    ∀ (s : ScanState Read M), (∀ pack ∈ packs, pack.WellFormed) →
      (∀ r m, c.mapRead r = some m → 0 < s.fusionMatches.length) →
      (scanPacks c packs s).calls = s.calls ++ (packs.map (packCalls c)).flatten
      ∧ (scanPacks c packs s).fusionMatches
          = appendToFirst s.fusionMatches
              ((pushed (packs.map (packCalls c)).flatten).map Prod.snd)
      ∧ (scanPacks c packs s).fault = s.fault := by
  induction packs with
  | nil => intro s _ _; simp [scanPacks, pushed, appendToFirst_nil]
  | cons pack rest ih =>
    intro s hwf hn
    obtain ⟨h1, h2, h3⟩ := scanPairEnd_spec c pack (hwf pack (List.mem_cons_self _ _)) s hn
    have hlen : (scanPairEnd c pack s).fusionMatches.length = s.fusionMatches.length := by
      rw [h2, appendToFirst_length]
    obtain ⟨i1, i2, i3⟩ := ih (scanPairEnd c pack s)
      (fun q hq => hwf q (List.mem_cons_of_mem _ hq)) (fun r m h => by rw [hlen]; exact hn r m h)
    simp only [scanPacks, List.foldl_cons, List.map_cons, List.flatten_cons] at *
    refine ⟨?_, ?_, ?_⟩
    · rw [i1, h1]; simp
    · rw [i2, h2, appendToFirst_append, pushed_append]; simp
    · rw [i3, h3]

theorem pushed_attemptSpec_origin (c : Collaborators Read M) (pair : ReadPair Read) (r : Read)
    (tag : Bool) :
    ∀ x ∈ pushed (attemptSpec c pair r tag), x.1 = 0 ∧ ∃ r, c.mapRead r = some x.2 := by
  intro x hx
  rw [pushed_attemptSpec] at hx
  cases h : c.mapRead r with
  | none => simp [h] at hx
  | some m =>
    simp [h] at hx
    subst hx
    exact ⟨rfl, r, h⟩

theorem pushed_pairCalls_origin (c : Collaborators Read M) (pair : ReadPair Read) :
    ∀ x ∈ pushed (pairCalls c pair), x.1 = 0 ∧ ∃ r, c.mapRead r = some x.2 := by
  intro x hx
  unfold pairCalls at hx
  cases h : c.fastMerge pair with
  | none =>
    simp only [h, pushed_append, List.mem_append] at hx
    rcases hx with (((hx | hx) | hx) | hx) | hx
    · exact pushed_attemptSpec_origin c pair _ _ x hx
    · exact pushed_attemptSpec_origin c pair _ _ x hx
    · exact pushed_attemptSpec_origin c pair _ _ x hx
    · exact pushed_attemptSpec_origin c pair _ _ x hx
    · simp [pushed] at hx
  | some merged =>
    simp only [h, pushed_append, List.mem_append] at hx
    rcases hx with hx | hx
    · exact pushed_attemptSpec_origin c pair _ _ x hx
    · exact pushed_attemptSpec_origin c pair _ _ x hx

theorem pushed_flatten_origin (c : Collaborators Read M) (ls : List (List (Call Read M)))
    (h : ∀ l ∈ ls, ∀ x ∈ pushed l, x.1 = 0 ∧ ∃ r, c.mapRead r = some x.2) :
    ∀ x ∈ pushed ls.flatten, x.1 = 0 ∧ ∃ r, c.mapRead r = some x.2 := by
  induction ls with
  | nil => intro x hx; simp [pushed] at hx
  | cons l rest ih =>
    intro x hx
    simp only [List.flatten_cons, pushed_append, List.mem_append] at hx
    rcases hx with hx | hx
    · exact h l (List.mem_cons_self _ _) x hx
    · exact ih (fun l hl => h l (List.mem_cons_of_mem _ hl)) x hx

theorem pushed_packCalls_origin (c : Collaborators Read M)
    (pack : ReadPairPack (ReadPair Read)) :
    ∀ x ∈ pushed (packCalls c pack), x.1 = 0 ∧ ∃ r, c.mapRead r = some x.2 := by
  intro x hx
  simp only [packCalls, pushed_append, List.mem_append] at hx
  rcases hx with hx | hx
  · refine pushed_flatten_origin c _ ?_ x hx
    intro l hl
    obtain ⟨pair, _, rfl⟩ := List.mem_map.mp hl
    exact pushed_pairCalls_origin c pair
  · simp [pushed] at hx

theorem pushed_packsCalls_origin (c : Collaborators Read M)
    (packs : List (ReadPairPack (ReadPair Read))) :
    ∀ x ∈ pushed (packs.map (packCalls c)).flatten,
      x.1 = 0 ∧ ∃ r, c.mapRead r = some x.2 := by
  refine pushed_flatten_origin c _ ?_
  intro l hl
  obtain ⟨pack, _, rfl⟩ := List.mem_map.mp hl
  exact pushed_packCalls_origin c pack

theorem pushMatch_frame (i : Nat) (m : M) (u : ScanState Read M)
    (hi : i < u.fusionMatches.length) :
    (pushMatch i m u).fusionMatches.getD i [] = u.fusionMatches.getD i [] ++ [m]
    ∧ (∀ j, j ≠ i → (pushMatch i m u).fusionMatches.getD j [] = u.fusionMatches.getD j [])
    ∧ (pushMatch i m u).fusionMatches.length = u.fusionMatches.length
    ∧ (pushMatch i m u).fault = u.fault := by
  refine ⟨?_, ?_, ?_, ?_⟩
  · simp [pushMatch, ScanState.call, List.getD, hi]
  · intro j hj
    simp [pushMatch, ScanState.call, List.getD, List.getElem?_set, Ne.symm hj]
  · simp [pushMatch, ScanState.call]
  · simp [pushMatch, ScanState.call]; omega

/-- What `scanPair` does to the aggregation array: list 0 gets the matches of
its `push_back` calls appended in call order, nothing else changes. -/
theorem scanPair_state (c : Collaborators Read M) (pair : ReadPair Read)
    (s : ScanState Read M)
    (hn : ∀ r m, c.mapRead r = some m → 0 < s.fusionMatches.length) :
    (scanPair c pair s).fusionMatches.getD 0 []
        = s.fusionMatches.getD 0 [] ++ (pushed (pairCalls c pair)).map Prod.snd
    ∧ (∀ j, j ≠ 0 →
        (scanPair c pair s).fusionMatches.getD j [] = s.fusionMatches.getD j [])
    ∧ (scanPair c pair s).fusionMatches.length = s.fusionMatches.length
    ∧ (scanPair c pair s).fault = s.fault := by
  obtain ⟨h1, h2⟩ := scanPair_agg c pair s hn
  refine ⟨?_, ?_, by rw [h1, appendToFirst_length], h2⟩
  · rw [h1]
    cases hl : s.fusionMatches with
    | nil =>
      cases hp : pushed (pairCalls c pair) with
      | nil => simp [appendToFirst]
      | cons x xs =>
        obtain ⟨_, r, hr⟩ := pushed_pairCalls_origin c pair x
          (by rw [hp]; exact List.mem_cons_self _ _)
        have := hn r _ hr
        simp [hl] at this
    | cons l rest => simp [appendToFirst]
  · intro j hj
    rw [h1]
    cases hl : s.fusionMatches with
    | nil => simp [appendToFirst]
    | cons l rest =>
      cases j with
      | zero => exact absurd rfl hj
      | succ k => simp [appendToFirst]

end ScanPackLemmas3

/-! ## Scan worker: the claims -/

/-- C3. Merge-success decomposition: for a pair whose `fastMerge` returns a
read, the mapper is invoked exactly twice, on the merged read and then on its
reverse complement (so never on the left or right read or their reverse
complements); the matches recorded are exactly the results of these two
attempts, each pushed to list 0, hence 0, 1 or 2 of them; the calls made for
the pair are two attempts in which `addOriginalPair` precedes the push; and,
when a mapper that can return a match comes with at least one match list, the
aggregation array really holds them afterwards: list 0 is the old list 0
followed by the matches of the two attempts in order, every other list and the
number of lists are unchanged, and the run stays inside the array. -/
theorem scanPair_merge_success {Read M : Type} (c : Collaborators Read M)
    (pair : ReadPair Read) (s : ScanState Read M) (merged : Read)
    (h : c.fastMerge pair = some merged) :
    mappedReads (callsSince s (scanPair c pair s)) = [merged, c.reverseComplement merged]
    ∧ pushed (callsSince s (scanPair c pair s))
        = ([merged, c.reverseComplement merged].filterMap c.mapRead).map (fun m => (0, m))
    ∧ (pushed (callsSince s (scanPair c pair s))).length ≤ 2
    ∧ callsSince s (scanPair c pair s)
        = attemptSpec c pair merged false
          ++ attemptSpec c pair (c.reverseComplement merged) false
    ∧ ((∀ r m, c.mapRead r = some m → 0 < s.fusionMatches.length) →
        (scanPair c pair s).fusionMatches.getD 0 []
            = s.fusionMatches.getD 0 []
              ++ [merged, c.reverseComplement merged].filterMap c.mapRead
        ∧ (∀ j, j ≠ 0 →
            (scanPair c pair s).fusionMatches.getD j [] = s.fusionMatches.getD j [])
        ∧ (scanPair c pair s).fusionMatches.length = s.fusionMatches.length
        ∧ (scanPair c pair s).fault = s.fault) := by
  have hc := callsSince_append s _ _ (scanPair_calls_merged c pair s merged h)
  have hcs := callsSince_append s _ _ (scanPair_calls c pair s)
  have hpush : pushed (callsSince s (scanPair c pair s))
      = ([merged, c.reverseComplement merged].filterMap c.mapRead).map (fun m => (0, m)) := by
    rw [hc]
    simp only [pushed_append, pushed_attemptSpec]
    cases hm : c.mapRead merged <;> cases hr : c.mapRead (c.reverseComplement merged) <;>
      simp [List.filterMap, hm, hr]
  refine ⟨?_, hpush, ?_, hc, ?_⟩
  · rw [hc]
    simp [mappedReads_append, mappedReads_attemptSpec]
  · rw [hc]
    simp only [pushed_append, pushed_attemptSpec]
    cases c.mapRead merged <;> cases c.mapRead (c.reverseComplement merged) <;> simp
  · intro hn
    obtain ⟨s1, s2, s3, s4⟩ := scanPair_state c pair s hn
    refine ⟨?_, s2, s3, s4⟩
    rw [s1, ← hcs, hpush, List.map_map]
    simp [Function.comp_def]

/-- Witness of C3: the pair (5, 5) merges into read 505; the mapper is called on
505 and 1505, both matches are recorded, and list 0 of the array holds them
while list 1 stays empty. -/
theorem scanPair_merge_success_witness :
    sampleCollaborators.fastMerge { mLeft := 5, mRight := 5 } = some 505
    ∧ mappedReads (callsSince (ScanState.init Nat Nat 2)
        (scanPair sampleCollaborators { mLeft := 5, mRight := 5 } (ScanState.init Nat Nat 2)))
        = [505, 1505]
    ∧ pushed (callsSince (ScanState.init Nat Nat 2)
        (scanPair sampleCollaborators { mLeft := 5, mRight := 5 } (ScanState.init Nat Nat 2)))
        = [(0, 505), (0, 1505)]
    ∧ (scanPair sampleCollaborators { mLeft := 5, mRight := 5 }
        (ScanState.init Nat Nat 2)).fusionMatches.getD 0 [] = [505, 1505]
    ∧ (scanPair sampleCollaborators { mLeft := 5, mRight := 5 }
        (ScanState.init Nat Nat 2)).fusionMatches = [[505, 1505], []] :=
  have h := scanPair_merge_success sampleCollaborators { mLeft := 5, mRight := 5 }
    (ScanState.init Nat Nat 2) 505 (by decide)
  have hn : ∀ r m, sampleCollaborators.mapRead r = some m →
      0 < (ScanState.init Nat Nat 2).fusionMatches.length := by
    intro _ _ _; decide
  ⟨by decide, h.1, by rw [h.2.1]; decide, (h.2.2.2.2 hn).1.trans (by decide), by decide⟩

/-- C4. Merge-failure decomposition: for a pair whose `fastMerge` returns no
read, the mapper is invoked exactly four times, on the left read, the right
read, the reverse complement of the left read and the reverse complement of
the right read; the matches recorded are exactly the results of these four
attempts (0 to 4 of them, all pushed to list 0); `setReversed(true)` is called
exactly on the matches of the two reverse-complemented reads; the calls made
for the pair are four attempts, the first two untagged and the last two
tagged, followed by the three `delete` statements; and, when a mapper that can
return a match comes with at least one match list, the aggregation array
really holds them afterwards: list 0 is the old list 0 followed by the matches
of the four attempts in order, every other list and the number of lists are
unchanged, and the run stays inside the array. -/
theorem scanPair_merge_failure {Read M : Type} (c : Collaborators Read M)
    (pair : ReadPair Read) (s : ScanState Read M) (h : c.fastMerge pair = none) :
    mappedReads (callsSince s (scanPair c pair s))
        = [pair.mLeft, pair.mRight, c.reverseComplement pair.mLeft,
            c.reverseComplement pair.mRight]
    ∧ pushed (callsSince s (scanPair c pair s))
        = ([pair.mLeft, pair.mRight, c.reverseComplement pair.mLeft,
            c.reverseComplement pair.mRight].filterMap c.mapRead).map (fun m => (0, m))
    ∧ (pushed (callsSince s (scanPair c pair s))).length ≤ 4
    ∧ reversedTags (callsSince s (scanPair c pair s))
        = ([c.reverseComplement pair.mLeft, c.reverseComplement pair.mRight].filterMap
            c.mapRead).map (fun m => (m, true))
    ∧ callsSince s (scanPair c pair s)
        = attemptSpec c pair pair.mLeft false
          ++ attemptSpec c pair pair.mRight false
          ++ attemptSpec c pair (c.reverseComplement pair.mLeft) true
          ++ attemptSpec c pair (c.reverseComplement pair.mRight) true
          ++ [.deletePair pair, .deleteRead (c.reverseComplement pair.mLeft),
              .deleteRead (c.reverseComplement pair.mRight)]
    ∧ ((∀ r m, c.mapRead r = some m → 0 < s.fusionMatches.length) →
        (scanPair c pair s).fusionMatches.getD 0 []
            = s.fusionMatches.getD 0 []
              ++ [pair.mLeft, pair.mRight, c.reverseComplement pair.mLeft,
                  c.reverseComplement pair.mRight].filterMap c.mapRead
        ∧ (∀ j, j ≠ 0 →
            (scanPair c pair s).fusionMatches.getD j [] = s.fusionMatches.getD j [])
        ∧ (scanPair c pair s).fusionMatches.length = s.fusionMatches.length
        ∧ (scanPair c pair s).fault = s.fault) := by
  have hc := callsSince_append s _ _ (scanPair_calls_unmerged c pair s h)
  have hcs := callsSince_append s _ _ (scanPair_calls c pair s)
  have hpush : pushed (callsSince s (scanPair c pair s))
      = ([pair.mLeft, pair.mRight, c.reverseComplement pair.mLeft,
          c.reverseComplement pair.mRight].filterMap c.mapRead).map (fun m => (0, m)) := by
    rw [hc]
    simp only [pushed_append, pushed_attemptSpec]
    cases h1 : c.mapRead pair.mLeft <;> cases h2 : c.mapRead pair.mRight <;>
      cases h3 : c.mapRead (c.reverseComplement pair.mLeft) <;>
      cases h4 : c.mapRead (c.reverseComplement pair.mRight) <;>
      simp [List.filterMap, h1, h2, h3, h4, pushed]
  refine ⟨?_, hpush, ?_, ?_, hc, ?_⟩
  · rw [hc]
    simp only [mappedReads_append, mappedReads_attemptSpec]
    simp [mappedReads]
  · rw [hc]
    simp only [pushed_append, pushed_attemptSpec]
    cases c.mapRead pair.mLeft <;> cases c.mapRead pair.mRight <;>
      cases c.mapRead (c.reverseComplement pair.mLeft) <;>
      cases c.mapRead (c.reverseComplement pair.mRight) <;>
      simp [pushed]
  · rw [hc]
    simp only [reversedTags_append, reversedTags_attemptSpec]
    cases h3 : c.mapRead (c.reverseComplement pair.mLeft) <;>
      cases h4 : c.mapRead (c.reverseComplement pair.mRight) <;>
      simp [List.filterMap, h3, h4, reversedTags]
  · intro hn
    obtain ⟨s1, s2, s3, s4⟩ := scanPair_state c pair s hn
    refine ⟨?_, s2, s3, s4⟩
    rw [s1, ← hcs, hpush, List.map_map]
    simp [Function.comp_def]

/-- Witness of C4: the pair (1, 2) does not merge; the mapper is called on 1,
2, 1001 and 1002, the matches of 1 and 1001 are recorded, only the one of 1001
is tagged reversed, and list 0 of the array holds both while list 1 stays
empty. -/
theorem scanPair_merge_failure_witness :
    sampleCollaborators.fastMerge { mLeft := 1, mRight := 2 } = none
    ∧ mappedReads (callsSince (ScanState.init Nat Nat 2)
        (scanPair sampleCollaborators { mLeft := 1, mRight := 2 } (ScanState.init Nat Nat 2)))
        = [1, 2, 1001, 1002]
    ∧ pushed (callsSince (ScanState.init Nat Nat 2)
        (scanPair sampleCollaborators { mLeft := 1, mRight := 2 } (ScanState.init Nat Nat 2)))
        = [(0, 1), (0, 1001)]
    ∧ reversedTags (callsSince (ScanState.init Nat Nat 2)
        (scanPair sampleCollaborators { mLeft := 1, mRight := 2 } (ScanState.init Nat Nat 2)))
        = [(1001, true)]
    ∧ (scanPair sampleCollaborators { mLeft := 1, mRight := 2 }
        (ScanState.init Nat Nat 2)).fusionMatches.getD 0 [] = [1, 1001]
    ∧ (scanPair sampleCollaborators { mLeft := 1, mRight := 2 }
        (ScanState.init Nat Nat 2)).fusionMatches = [[1, 1001], []] :=
  have h := scanPair_merge_failure sampleCollaborators { mLeft := 1, mRight := 2 }
    (ScanState.init Nat Nat 2) (by decide)
  have hn : ∀ r m, sampleCollaborators.mapRead r = some m →
      0 < (ScanState.init Nat Nat 2).fusionMatches.length := by
    intro _ _ _; decide
  ⟨by decide, h.1, by rw [h.2.1]; decide, by rw [h.2.2.2.1]; decide,
    (h.2.2.2.2.2 hn).1.trans (by decide), by decide⟩

/-- C10. Orientation flag on the merge path: the `setReversed` calls made for a
pair are none when its `fastMerge` succeeded, whatever the two attempts on the
merged read and its reverse complement returned, and, when it failed, exactly
one `setReversed(true)` for each match returned for the reverse complement of
the left read or of the right read; every match so tagged is also recorded. -/
theorem scanPair_setReversed {Read M : Type} (c : Collaborators Read M)
    (pair : ReadPair Read) (s : ScanState Read M) :
    reversedTags (callsSince s (scanPair c pair s))
        = (match c.fastMerge pair with
          | some _ => []
          | none =>
            ([c.reverseComplement pair.mLeft, c.reverseComplement pair.mRight].filterMap
              c.mapRead).map (fun m => (m, true)))
    ∧ (∀ x ∈ reversedTags (callsSince s (scanPair c pair s)),
        x.2 = true ∧ (0, x.1) ∈ pushed (callsSince s (scanPair c pair s))) := by
  have hc := callsSince_append s _ _ (scanPair_calls c pair s)
  rw [hc]
  unfold pairCalls
  cases h : c.fastMerge pair with
  | some merged =>
    simp [reversedTags_append, reversedTags_attemptSpec]
  | none =>
    simp only [reversedTags_append, reversedTags_attemptSpec, pushed_append, pushed_attemptSpec]
    cases h3 : c.mapRead (c.reverseComplement pair.mLeft) <;>
      cases h4 : c.mapRead (c.reverseComplement pair.mRight) <;>
      simp [List.filterMap, h3, h4, reversedTags, pushed]

/-- Witness of C10: no `setReversed` for the merging pair (5, 5), although both
attempts on its merged read match; one `setReversed(true)` for the pair (1, 2),
on the match of the reverse complement 1001. -/
theorem scanPair_setReversed_witness :
    reversedTags (callsSince (ScanState.init Nat Nat 2)
        (scanPair sampleCollaborators { mLeft := 5, mRight := 5 } (ScanState.init Nat Nat 2)))
      = []
    ∧ reversedTags (callsSince (ScanState.init Nat Nat 2)
        (scanPair sampleCollaborators { mLeft := 1, mRight := 2 } (ScanState.init Nat Nat 2)))
      = [(1001, true)] :=
  ⟨(scanPair_setReversed sampleCollaborators { mLeft := 5, mRight := 5 }
      (ScanState.init Nat Nat 2)).1.trans (by decide),
   (scanPair_setReversed sampleCollaborators { mLeft := 1, mRight := 2 }
      (ScanState.init Nat Nat 2)).1.trans (by decide)⟩

/-- C9. Single-bucket aggregation: when the packs are well formed and a mapper
that can return a match comes with at least one match list, every `push_back`
made while scanning has index 0; the scan stays inside the array; list 0 gets
all recorded matches appended in call order and every other list is left as it
was (so still empty when it was empty); and `pushMatch i m` on an existing
list `i` appends `m` at its end and leaves every other list unchanged. -/
theorem scanPacks_single_bucket {Read M : Type} (c : Collaborators Read M)
    (packs : List (ReadPairPack (ReadPair Read))) (s : ScanState Read M)
    (hwf : ∀ pack ∈ packs, pack.WellFormed)
    (hn : ∀ r m, c.mapRead r = some m → 0 < s.fusionMatches.length) :
    (∀ x ∈ pushed (callsSince s (scanPacks c packs s)), x.1 = 0)
    ∧ (scanPacks c packs s).fault = s.fault
    ∧ (scanPacks c packs s).fusionMatches.length = s.fusionMatches.length
    ∧ (scanPacks c packs s).fusionMatches.getD 0 []
        = s.fusionMatches.getD 0 [] ++ (pushed (callsSince s (scanPacks c packs s))).map Prod.snd
    ∧ (∀ j, j ≠ 0 →
        (scanPacks c packs s).fusionMatches.getD j [] = s.fusionMatches.getD j [])
    ∧ (∀ (i : Nat) (m : M) (u : ScanState Read M), i < u.fusionMatches.length →
        (pushMatch i m u).fusionMatches.getD i [] = u.fusionMatches.getD i [] ++ [m]
        ∧ (∀ j, j ≠ i → (pushMatch i m u).fusionMatches.getD j [] = u.fusionMatches.getD j [])
        ∧ (pushMatch i m u).fusionMatches.length = u.fusionMatches.length
        ∧ (pushMatch i m u).fault = u.fault) := by
  obtain ⟨h1, h2, h3⟩ := scanPacks_spec c packs s hwf hn
  have hc := callsSince_append s _ _ h1
  have ho := pushed_packsCalls_origin c packs
  rw [hc]
  refine ⟨fun x hx => (ho x hx).1, h3, by rw [h2, appendToFirst_length], ?_, ?_,
    fun i m u hi => pushMatch_frame i m u hi⟩
  · rw [h2]
    cases hl : s.fusionMatches with
    | nil =>
      cases hp : pushed (packs.map (packCalls c)).flatten with
      | nil => simp [appendToFirst]
      | cons x xs =>
        obtain ⟨_, r, hr⟩ := ho x (by rw [hp]; exact List.mem_cons_self _ _)
        have := hn r _ hr
        simp [hl] at this
    | cons l rest => simp [appendToFirst]
  · intro j hj
    rw [h2]
    cases hl : s.fusionMatches with
    | nil => simp [appendToFirst]
    | cons l rest =>
      cases j with
      | zero => exact absurd rfl hj
      | succ k => simp [appendToFirst]

/-- Witness of C9: with two match lists, scanning the sample pack puts the four
matches into list 0 and leaves list 1 empty. -/
theorem scanPacks_single_bucket_witness :
    (∀ pack ∈ [samplePack], pack.WellFormed)
    ∧ (∀ r m, sampleCollaborators.mapRead r = some m →
        0 < (ScanState.init Nat Nat 2).fusionMatches.length)
    ∧ (scanPacks sampleCollaborators [samplePack] (ScanState.init Nat Nat 2)).fusionMatches
        = [[505, 1505, 1, 1001], []]
    ∧ (∀ j, j ≠ 0 →
        (scanPacks sampleCollaborators [samplePack] (ScanState.init Nat Nat 2)).fusionMatches.getD
          j [] = (ScanState.init Nat Nat 2).fusionMatches.getD j []) :=
  have hwf : ∀ pack ∈ [samplePack], pack.WellFormed := by
    simp [ReadPairPack.WellFormed, ReadPairPack.entries, samplePack]
  have hn : ∀ r m, sampleCollaborators.mapRead r = some m →
      0 < (ScanState.init Nat Nat 2).fusionMatches.length := by
    intro _ _ _; decide
  ⟨hwf, hn, by decide,
    (scanPacks_single_bucket sampleCollaborators [samplePack] (ScanState.init Nat Nat 2)
      hwf hn).2.2.2.2.1⟩

/-- C8 at a failing input: in the sample pack the first pair merges and the
second does not. The `delete` statements executed by `scanPairEnd` are those
of the second pair and of the pack; the first pair (5, 5), its merged read 505
and the reverse complement 1505 are never released. More generally no `delete`
statement at all is executed for a pair whose merge succeeded. -/
theorem scanPairEnd_merged_pair_not_released :
    released (scanPairEnd sampleCollaborators samplePack (ScanState.init Nat Nat 1)).calls
      = [.deletePair { mLeft := 1, mRight := 2 }, .deleteRead 1001, .deleteRead 1002,
          .deleteData, .deletePack]
    ∧ Call.deletePair { mLeft := 5, mRight := 5 }
        ∉ (scanPairEnd sampleCollaborators samplePack (ScanState.init Nat Nat 1)).calls
    ∧ Call.deleteRead 505
        ∉ (scanPairEnd sampleCollaborators samplePack (ScanState.init Nat Nat 1)).calls
    ∧ Call.deleteRead 1505
        ∉ (scanPairEnd sampleCollaborators samplePack (ScanState.init Nat Nat 1)).calls
    ∧ (∀ (Read M : Type) (c : Collaborators Read M) (pair : ReadPair Read)
        (s : ScanState Read M) (merged : Read), c.fastMerge pair = some merged →
        released (callsSince s (scanPair c pair s)) = []) := by
  refine ⟨by decide, by decide, by decide, by decide, ?_⟩
  intro Read M c pair s merged h
  rw [callsSince_append s _ _ (scanPair_calls_merged c pair s merged h)]
  simp [released_append, released_attemptSpec]


/-! ## The pipeline: runs that break the ring, the shutdown and the throttle -/

/-- C2 at failing inputs. With two consumers and a ring of two slots (signed or
64-bit unsigned cursors alike), after packs 10 and 11 were enqueued and taken,
`readPos` is 2 and not yet wrapped, and the second consumer passes the test of
line 181 and reads slot 2, outside the buffer: three slots were dequeued from
two packs enqueued. With one consumer and signed cursors, the producer passes
the test of line 162 while `readPos` is 2 and overwrites pack 12 in slot 0 with
pack 14 before it was read: the packs dequeued are 10, 11, 14 out of 10 to 14
enqueued, which is not an initial segment of them. -/
theorem ring_not_fifo :
    (Pipeline.run (smallRing 1 .signed 2) overrunSchedule
        (Pipeline.init (smallRing 1 .signed 2) [10, 11])).map Pipeline.view
      = some { writePos := 0, readPos := 3, enqueued := [some 10, some 11],
               dequeued := [some (some 10), some (some 11), none],
               slotsRead := [0, 1, 2], fifo := false }
    ∧ (Pipeline.run (smallRing 1 (.unsigned 64) 2) overrunSchedule
        (Pipeline.init (smallRing 1 (.unsigned 64) 2) [10, 11])).map Pipeline.view
      = some { writePos := 0, readPos := 3, enqueued := [some 10, some 11],
               dequeued := [some (some 10), some (some 11), none],
               slotsRead := [0, 1, 2], fifo := false }
    ∧ (Pipeline.run (smallRing 1 .signed 1) overwriteSchedule
        (Pipeline.init (smallRing 1 .signed 1) [10, 11, 12, 13, 14])).map Pipeline.view
      = some { writePos := 1, readPos := 1,
               enqueued := [some 10, some 11, some 12, some 13, some 14],
               dequeued := [some (some 10), some (some 11), some (some 14)],
               slotsRead := [0, 1, 0], fifo := false } := by
  decide

/-! ## The pipeline: a consumer in `wait` after the producer has returned -/

theorem producerStep_done {P : Type} (cfg : Config) (s : Pipeline P)
    (hp : s.producer = .done) : producerStep cfg s = none := by
  simp [producerStep, hp]

/-- Once the producer has returned, no step of any thread takes consumer `i` out
of `repoNotEmpty.wait`. -/
theorem step_keeps_waiting {P : Type} (cfg : Config) (s t : Pipeline P) (th : Thread)
    (i : Nat) (h : Bool) (hp : s.producer = .done)
    (hw : s.consumers[i]? = some (.waitNotEmpty h)) (hs : s.step cfg th = some t) :
    t.producer = .done ∧ t.consumers[i]? = some (.waitNotEmpty h) := by
  cases th with
  | producer => simp [Pipeline.step, producerStep_done cfg s hp] at hs
  | consumer j =>
    by_cases hij : j = i
    · subst hij
      simp [Pipeline.step, consumerStep, hw] at hs
    · have hset : ∀ pc : ConsumerPc P,
          (s.consumers.set j pc)[i]? = some (.waitNotEmpty h) := by
        intro pc
        rw [List.getElem?_set_ne hij]
        exact hw
      simp only [Pipeline.step, consumerStep] at hs
      cases hj : s.consumers[j]? with
      | none => simp [hj] at hs
      | some pc =>
        cases pc with
        | loopHead =>
          simp only [hj] at hs
          split at hs
          · split at hs
            · cases hs; exact ⟨hp, hset _⟩
            · split at hs <;> (cases hs; exact ⟨hp, hset _⟩)
          · cases hs
        | consumePack hc =>
          simp only [hj] at hs
          split at hs
          · split at hs <;> (cases hs; exact ⟨hp, hset _⟩)
          · cases hs; exact ⟨hp, hset _⟩
        | waitNotEmpty hc => simp [hj] at hs
        | scanning d hc =>
          simp only [hj] at hs
          cases hs
          exact ⟨by simp [hp, notifyNotFull], hset _⟩
        | exited => simp [hj] at hs

/-- Once the producer has returned, a consumer in `repoNotEmpty.wait` is still
there after any schedule. -/
theorem run_keeps_waiting {P : Type} (cfg : Config) (sched : List Thread) :
    ∀ (s t : Pipeline P) (i : Nat) (h : Bool), s.producer = .done →
      s.consumers[i]? = some (.waitNotEmpty h) → Pipeline.run cfg sched s = some t →
      t.producer = .done ∧ t.consumers[i]? = some (.waitNotEmpty h) := by
  induction sched with
  | nil =>
    intro s t i h hp hw hr
    simp [Pipeline.run] at hr
    subst hr
    exact ⟨hp, hw⟩
  | cons th rest ih =>
    intro s t i h hp hw hr
    simp only [Pipeline.run] at hr
    cases hs : s.step cfg th with
    | none => simp [hs] at hr
    | some u =>
      simp only [hs] at hr
      obtain ⟨hp2, hw2⟩ := step_keeps_waiting cfg s u th i h hp hw hs
      exact ih u t i h hp2 hw2 hr

/-- C5 at failing inputs. For no pair at all, for one pair in batches of two,
and for two pairs in batches of two with two consumers, a run reaches a state
in which the producer has returned, `mProduceFinished` is set, the ring is
empty, every consumer sits in `repoNotEmpty.wait` and no thread has a step: the
producer set the flag without notifying `repoNotEmpty`. And in any state in
which the producer has returned, a consumer that sits in `repoNotEmpty.wait`
still sits there after every schedule, so its loop never exits. -/
theorem consumers_wait_forever :
    (Pipeline.run (smallRing 1 .signed 1) lostWakeupEmpty
        (Pipeline.init (smallRing 1 .signed 1) ([] : List Nat))).map
        (Pipeline.shutdownView (smallRing 1 .signed 1))
      = some { producerReturned := true, mProduceFinished := true, ringEmpty := true,
               waiting := [true], stuck := true }
    ∧ (Pipeline.run (smallRing 2 .signed 1) lostWakeupPartial
        (Pipeline.init (smallRing 2 .signed 1) [10])).map
        (Pipeline.shutdownView (smallRing 2 .signed 1))
      = some { producerReturned := true, mProduceFinished := true, ringEmpty := true,
               waiting := [true], stuck := true }
    ∧ (Pipeline.run (smallRing 2 .signed 2) lostWakeupFull
        (Pipeline.init (smallRing 2 .signed 2) [10, 11])).map
        (Pipeline.shutdownView (smallRing 2 .signed 2))
      = some { producerReturned := true, mProduceFinished := true, ringEmpty := true,
               waiting := [true, true], stuck := true }
    ∧ (∀ (cfg : Config) (sched : List Thread) (s t : Pipeline Nat) (i : Nat) (h : Bool),
        s.producer = .done → s.consumers[i]? = some (.waitNotEmpty h) →
        Pipeline.run cfg sched s = some t →
        t.consumers[i]? = some (.waitNotEmpty h)) := by
  refine ⟨by decide, by decide, by decide, ?_⟩
  intro cfg sched s t i h hp hw hr
  exact (run_keeps_waiting cfg sched s t i h hp hw hr).2

/-- C6 at failing inputs. In a ring of three slots with soft limit 1, once the
third pack is enqueued the write cursor is back at 0 while `readPos` is 1: two
packs are in flight, but `writePos - readPos` is -1 with signed cursors and
2^64 - 1 with 64-bit unsigned ones. In a ring of five slots with soft limit 1
and signed cursors the throttle then lets the producer go on: it stands at the
`producePack` call with three packs in flight, more than the limit plus one, and
its next step enqueues a fourth. -/
theorem throttle_ignores_wrap :
    (Pipeline.run (unitPacks 3 1 .signed) wrapSchedule
        (Pipeline.init (unitPacks 3 1 .signed) [10, 11, 12])).map
        (fun s => (s.writePos, s.readPos, s.inFlight, cursorDiff .signed s.writePos s.readPos))
      = some (0, 1, 2, -1)
    ∧ (Pipeline.run (unitPacks 3 1 (.unsigned 64)) wrapSchedule
        (Pipeline.init (unitPacks 3 1 (.unsigned 64)) [10, 11, 12])).map
        (fun s => (s.writePos, s.readPos, s.inFlight,
          cursorDiff (.unsigned 64) s.writePos s.readPos))
      = some (0, 1, 2, 18446744073709551615)
    ∧ (Pipeline.run (unitPacks 5 1 .signed) unthrottledSchedule
        (Pipeline.init (unitPacks 5 1 .signed) [10, 11, 12, 13, 14, 15, 16])).map
        (fun s => (s.producer, s.inFlight))
      = some (.producePack { data := [some 16], count := 1 } false, 3)
    ∧ (Pipeline.run (unitPacks 5 1 .signed) (unthrottledSchedule ++ [.producer])
        (Pipeline.init (unitPacks 5 1 .signed) [10, 11, 12, 13, 14, 15, 16])).map
        (fun s => (s.producer, s.inFlight))
      = some (.throttle, 4) := by
  decide


/-! ## Lock discipline: proofs -/

section LockLemmas

variable {Read M : Type}

theorem heldAfter_append (held : List Lock) (a b : List LockOp) :
    heldAfter held (a ++ b) = heldAfter held a ++ heldAfter (finalHeld held a) b := by
  induction a generalizing held with
  | nil => rfl
  | cons op ops ih => simp [heldAfter, finalHeld, ih]

theorem heldAfter_cons (held : List Lock) (op : LockOp) (ops : List LockOp) :
    heldAfter held (op :: ops)
      = applyLockOp held op :: heldAfter (applyLockOp held op) ops := rfl

theorem finalHeld_append (held : List Lock) (a b : List LockOp) :
    finalHeld held (a ++ b) = finalHeld (finalHeld held a) b := by
  simp [finalHeld]

/-- The lock operations of `k` calls of `pushMatch`. -/
theorem pushOps_held (base : List Lock) (k : Nat) :
    (∀ h ∈ heldAfter base
        (List.replicate k [LockOp.acquire .fusionMtx, LockOp.release .fusionMtx]).flatten,
      h = base ∨ h = .fusionMtx :: base)
    ∧ finalHeld base
        (List.replicate k [LockOp.acquire .fusionMtx, LockOp.release .fusionMtx]).flatten
      = base := by
  induction k with
  | zero => simp [heldAfter, finalHeld]
  | succ k ih =>
    rw [List.replicate_succ, List.flatten_cons, heldAfter_append, finalHeld_append]
    have hf : finalHeld base [LockOp.acquire .fusionMtx, LockOp.release .fusionMtx] = base := by
      simp [finalHeld, applyLockOp]
    rw [hf]
    refine ⟨?_, ih.2⟩
    intro h hh
    rcases List.mem_append.mp hh with hh | hh
    · simp [heldAfter, applyLockOp] at hh
      rcases hh with hh | hh
      · exact Or.inr hh
      · exact Or.inl hh
    · exact ih.1 h hh

theorem lockOps_attemptSpec (c : Collaborators Read M) (pair : ReadPair Read) (r : Read)
    (tag : Bool) :
    ∃ k, lockOps (attemptSpec c pair r tag)
      = (List.replicate k [LockOp.acquire .fusionMtx, LockOp.release .fusionMtx]).flatten := by
  unfold attemptSpec
  cases c.mapRead r with
  | none => exact ⟨0, by simp [lockOps]⟩
  | some m => exact ⟨1, by cases tag <;> simp [lockOps]⟩

theorem pushOps_append (j k : Nat) :
    (List.replicate j [LockOp.acquire .fusionMtx, LockOp.release .fusionMtx]).flatten
      ++ (List.replicate k [LockOp.acquire .fusionMtx, LockOp.release .fusionMtx]).flatten
    = (List.replicate (j + k)
        [LockOp.acquire .fusionMtx, LockOp.release .fusionMtx]).flatten := by
  rw [← List.flatten_append, List.append_replicate_replicate]

theorem lockOps_pairCalls (c : Collaborators Read M) (pair : ReadPair Read) :
    ∃ k, lockOps (pairCalls c pair)
      = (List.replicate k [LockOp.acquire .fusionMtx, LockOp.release .fusionMtx]).flatten := by
  unfold pairCalls
  cases c.fastMerge pair with
  | none =>
    obtain ⟨k1, h1⟩ := lockOps_attemptSpec c pair pair.mLeft false
    obtain ⟨k2, h2⟩ := lockOps_attemptSpec c pair pair.mRight false
    obtain ⟨k3, h3⟩ := lockOps_attemptSpec c pair (c.reverseComplement pair.mLeft) true
    obtain ⟨k4, h4⟩ := lockOps_attemptSpec c pair (c.reverseComplement pair.mRight) true
    refine ⟨k1 + k2 + k3 + k4, ?_⟩
    simp only [lockOps_append, h1, h2, h3, h4, pushOps_append]
    simp [lockOps]
  | some merged =>
    obtain ⟨k1, h1⟩ := lockOps_attemptSpec c pair merged false
    obtain ⟨k2, h2⟩ := lockOps_attemptSpec c pair (c.reverseComplement merged) false
    exact ⟨k1 + k2, by simp only [lockOps_append, h1, h2, pushOps_append]⟩

theorem lockOps_scanIndex (c : Collaborators Read M) (pack : ReadPairPack (ReadPair Read))
    (s : ScanState Read M) (p : Nat) :
    ∃ k, lockOps (scanIndex c pack s p).calls
      = lockOps s.calls
        ++ (List.replicate k [LockOp.acquire .fusionMtx, LockOp.release .fusionMtx]).flatten := by
  unfold scanIndex
  cases pack.data.getD p none with
  | none => exact ⟨0, by simp⟩
  | some pair =>
    obtain ⟨k, hk⟩ := lockOps_pairCalls c pair
    exact ⟨k, by simp only [scanPair_calls, lockOps_append, hk]⟩

theorem lockOps_foldl_scanIndex (c : Collaborators Read M)
    (pack : ReadPairPack (ReadPair Read)) (ps : List Nat) :
    ∀ (s : ScanState Read M), ∃ k, lockOps (ps.foldl (scanIndex c pack) s).calls
      = lockOps s.calls
        ++ (List.replicate k [LockOp.acquire .fusionMtx, LockOp.release .fusionMtx]).flatten := by
  induction ps with
  | nil => intro s; exact ⟨0, by simp⟩
  | cons p rest ih =>
    intro s
    obtain ⟨k1, h1⟩ := lockOps_scanIndex c pack s p
    obtain ⟨k2, h2⟩ := ih (scanIndex c pack s p)
    exact ⟨k1 + k2, by rw [List.foldl_cons, h2, h1, List.append_assoc, pushOps_append]⟩

/-- The lock operations of `scanPairEnd` are those of its `pushMatch` calls. -/
theorem lockOps_scanPairEnd (c : Collaborators Read M) (pack : ReadPairPack (ReadPair Read))
    (n : Nat) :
    ∃ k, lockOps (scanPairEnd c pack (ScanState.init Read M n)).calls
      = (List.replicate k [LockOp.acquire .fusionMtx, LockOp.release .fusionMtx]).flatten := by
  obtain ⟨k, hk⟩ := lockOps_foldl_scanIndex c pack (List.range pack.count)
    (ScanState.init Read M n)
  refine ⟨k, ?_⟩
  simp only [scanPairEnd, ScanState.call, lockOps_append, hk]
  simp [lockOps, ScanState.init]

/-- The locks held inside `consumePack` after `mRepo.mtx` was taken, when `base`
was held at the call: `base` alone or with one of `mRepo.mtx` and `mFusionMtx`;
and `base` again once the call has returned. -/
theorem consumeLoopOps_held (c : Collaborators Read M) (data : ReadPairPack (ReadPair Read))
    (base : List Lock) (tests : List (Bool × Bool)) :
    (∀ h ∈ heldAfter (.mtx :: base) (consumeLoopOps c data tests).1,
      h = base ∨ h = .mtx :: base ∨ h = .fusionMtx :: base)
    ∧ ((consumeLoopOps c data tests).2 = true →
        finalHeld (.mtx :: base) (consumeLoopOps c data tests).1 = base) := by
  induction tests with
  | nil => simp [consumeLoopOps, heldAfter]
  | cons t rest ih =>
    obtain ⟨empty, fin⟩ := t
    cases empty with
    | false =>
      obtain ⟨k, hk⟩ := lockOps_scanPairEnd c data 0
      have hp := pushOps_held base k
      simp only [consumeLoopOps, hk]
      refine ⟨?_, fun _ => ?_⟩
      · intro h hh
        simp only [heldAfter, applyLockOp, List.erase_cons_head, List.mem_cons] at hh
        rcases hh with hh | hh
        · exact Or.inl hh
        · rcases hp.1 h hh with hh | hh
          · exact Or.inl hh
          · exact Or.inr (Or.inr hh)
      · simpa [finalHeld, applyLockOp] using hp.2
    | true =>
      cases fin with
      | true => simp [consumeLoopOps, heldAfter, finalHeld, applyLockOp]
      | false =>
        simp only [consumeLoopOps]
        refine ⟨?_, fun hr => ?_⟩
        · intro h hh
          simp only [heldAfter, applyLockOp, List.erase_cons_head, List.mem_cons] at hh
          rcases hh with hh | hh | hh
          · exact Or.inl hh
          · exact Or.inr (Or.inl hh)
          · exact ih.1 h hh
        · have := ih.2 hr
          simpa [finalHeld, applyLockOp] using this

theorem consumePackOps_held (c : Collaborators Read M) (obs : ConsumeObs Read)
    (base : List Lock) :
    (∀ h ∈ heldAfter base (consumePackOps c obs).1,
      h = base ∨ h = .mtx :: base ∨ h = .fusionMtx :: base)
    ∧ ((consumePackOps c obs).2 = true → finalHeld base (consumePackOps c obs).1 = base) := by
  have hl := consumeLoopOps_held c obs.data base obs.tests
  simp only [consumePackOps]
  refine ⟨?_, fun hr => ?_⟩
  · intro h hh
    simp only [heldAfter, applyLockOp, List.mem_cons] at hh
    rcases hh with hh | hh
    · exact Or.inr (Or.inl hh)
    · exact hl.1 h hh
  · simpa [finalHeld, applyLockOp] using hl.2 hr

/-- The sets of locks a consumer can hold. -/
theorem consumerTaskOps_held (c : Collaborators Read M) (obs : List (IterationObs Read)) :
    ∀ h ∈ heldAfter [] (consumerTaskOps c obs),
      h = [] ∨ h = [.mtx] ∨ h = [.fusionMtx] ∨ h = [.readCounterMtx]
      ∨ h = [.mtx, .readCounterMtx] ∨ h = [.fusionMtx, .readCounterMtx] := by
  induction obs with
  | nil => simp [consumerTaskOps, heldAfter]
  | cons it rest ih =>
    intro h hh
    simp only [consumerTaskOps, heldAfter, applyLockOp, List.mem_cons] at hh
    rcases hh with hh | hh
    · simp [hh]
    · by_cases hbreak : (it.mProduceFinished && it.ringEmpty) = true
      · simp [hbreak, heldAfter, applyLockOp] at hh
        simp [hh]
      · simp only [hbreak] at hh
        by_cases hfin : it.mProduceFinished = true
        · have hc := consumePackOps_held c it.consume [.readCounterMtx]
          simp only [hfin, if_true, Bool.false_eq_true, if_false, heldAfter_append] at hh
          rcases List.mem_append.mp hh with hh | hh
          · rcases hc.1 h hh with hh | hh | hh <;> simp [hh]
          · by_cases hret : (consumePackOps c it.consume).2 = true
            · rw [hc.2 hret] at hh
              simp only [hret, if_true, heldAfter, applyLockOp, List.erase_cons_head,
                List.mem_cons] at hh
              rcases hh with hh | hh
              · simp [hh]
              · exact ih h hh
            · simp [hret, heldAfter] at hh
        · have hc := consumePackOps_held c it.consume []
          simp only [hfin, Bool.false_eq_true, if_false] at hh
          rw [heldAfter_cons, heldAfter_append] at hh
          simp only [applyLockOp, List.erase_cons_head, List.mem_cons] at hh
          rcases hh with hh | hh
          · simp [hh]
          · rcases List.mem_append.mp hh with hh | hh
            · rcases hc.1 h hh with hh | hh | hh <;> simp [hh]
            · by_cases hret : (consumePackOps c it.consume).2 = true
              · rw [hc.2 hret] at hh
                simp only [hret, if_true] at hh
                exact ih h hh
              · simp [hret, heldAfter] at hh

/-- A consumer that never read `mProduceFinished` as set holds at most one
lock. -/
theorem consumerTaskOps_held_unfinished (c : Collaborators Read M)
    (obs : List (IterationObs Read)) (hobs : ∀ it ∈ obs, it.mProduceFinished = false) :
    ∀ h ∈ heldAfter [] (consumerTaskOps c obs),
      h = [] ∨ h = [.mtx] ∨ h = [.fusionMtx] ∨ h = [.readCounterMtx] := by
  induction obs with
  | nil => simp [consumerTaskOps, heldAfter]
  | cons it rest ih =>
    intro h hh
    have hfin := hobs it (List.mem_cons_self _ _)
    have ih' := ih (fun it' hit => hobs it' (List.mem_cons_of_mem _ hit))
    have hc := consumePackOps_held c it.consume []
    simp only [consumerTaskOps, hfin, Bool.false_and, Bool.false_eq_true, if_false] at hh
    rw [heldAfter_cons, heldAfter_cons, heldAfter_append] at hh
    simp only [applyLockOp, List.erase_cons_head, List.mem_cons] at hh
    rcases hh with hh | hh | hh
    · simp [hh]
    · simp [hh]
    · rcases List.mem_append.mp hh with hh | hh
      · rcases hc.1 h hh with hh | hh | hh <;> simp [hh]
      · by_cases hret : (consumePackOps c it.consume).2 = true
        · rw [hc.2 hret] at hh
          simp only [hret, if_true] at hh
          exact ih' h hh
        · simp [hret, heldAfter] at hh

/-- A consumer that read `mProduceFinished` as set in every pass holds
`readCounterMtx` whenever it holds a lock. -/
theorem consumerTaskOps_held_finished (c : Collaborators Read M)
    (obs : List (IterationObs Read)) (hobs : ∀ it ∈ obs, it.mProduceFinished = true) :
    ∀ h ∈ heldAfter [] (consumerTaskOps c obs),
      h = [] ∨ h = [.readCounterMtx] ∨ h = [.mtx, .readCounterMtx]
      ∨ h = [.fusionMtx, .readCounterMtx] := by
  induction obs with
  | nil => simp [consumerTaskOps, heldAfter]
  | cons it rest ih =>
    intro h hh
    have hfin := hobs it (List.mem_cons_self _ _)
    have ih' := ih (fun it' hit => hobs it' (List.mem_cons_of_mem _ hit))
    have hc := consumePackOps_held c it.consume [.readCounterMtx]
    simp only [consumerTaskOps] at hh
    rw [heldAfter_cons] at hh
    simp only [applyLockOp, List.mem_cons] at hh
    rcases hh with hh | hh
    · simp [hh]
    · by_cases hbreak : (it.mProduceFinished && it.ringEmpty) = true
      · simp [hbreak, heldAfter, applyLockOp] at hh
        simp [hh]
      · have hne : it.ringEmpty = false := by
          cases he : it.ringEmpty with
          | false => rfl
          | true => simp [hfin, he] at hbreak
        simp only [hfin, hne, Bool.and_false, Bool.false_eq_true, if_false, if_true,
          heldAfter_append] at hh
        rcases List.mem_append.mp hh with hh | hh
        · rcases hc.1 h hh with hh | hh | hh <;> simp [hh]
        · by_cases hret : (consumePackOps c it.consume).2 = true
          · rw [hc.2 hret] at hh
            simp only [hret, if_true] at hh
            rw [heldAfter_cons] at hh
            simp only [applyLockOp, List.erase_cons_head, List.mem_cons] at hh
            rcases hh with hh | hh
            · simp [hh]
            · exact ih' h hh
          · simp [hret, heldAfter] at hh

/-- A pass that reads `mProduceFinished` as set and the ring as not empty takes
`mRepo.mtx` right after `readCounterMtx`, without releasing it. -/
theorem consumerTaskOps_finished_pass (c : Collaborators Read M) (it : IterationObs Read)
    (rest : List (IterationObs Read)) (hfin : it.mProduceFinished = true)
    (hne : it.ringEmpty = false) :
    (heldAfter [] (consumerTaskOps c (it :: rest))).take 2
      = [[.readCounterMtx], [.mtx, .readCounterMtx]] := by
  simp [consumerTaskOps, consumePackOps, hfin, hne, heldAfter, applyLockOp]

theorem producePackOps_held (waits : Nat) :
    (∀ h ∈ heldAfter [] (producePackOps waits), h = [] ∨ h = [.mtx])
    ∧ finalHeld [] (producePackOps waits) = [] := by
  have hloop : ∀ k : Nat,
      (∀ h ∈ heldAfter [Lock.mtx]
          (List.replicate k [LockOp.release .mtx, LockOp.acquire .mtx]).flatten,
        h = [] ∨ h = [.mtx])
      ∧ finalHeld [Lock.mtx]
          (List.replicate k [LockOp.release .mtx, LockOp.acquire .mtx]).flatten = [.mtx] := by
    intro k
    induction k with
    | zero => simp [heldAfter, finalHeld]
    | succ k ih =>
      rw [List.replicate_succ, List.flatten_cons, heldAfter_append, finalHeld_append]
      have hf : finalHeld [Lock.mtx] [LockOp.release .mtx, LockOp.acquire .mtx] = [.mtx] := by
        simp [finalHeld, applyLockOp]
      rw [hf]
      refine ⟨?_, ih.2⟩
      intro h hh
      rcases List.mem_append.mp hh with hh | hh
      · simp [heldAfter, applyLockOp] at hh
        rcases hh with hh | hh <;> simp [hh]
      · exact ih.1 h hh
  unfold producePackOps
  refine ⟨?_, ?_⟩
  · intro h hh
    simp only [heldAfter, applyLockOp, List.mem_cons, heldAfter_append, (hloop waits).2] at hh
    rcases hh with hh | hh
    · simp [hh]
    · rcases List.mem_append.mp hh with hh | hh
      · exact (hloop waits).1 h hh
      · simp [heldAfter, applyLockOp] at hh
        simp [hh]
  · have := (hloop waits).2
    simp only [finalHeld, List.foldl_cons, List.foldl_append, applyLockOp] at this ⊢
    rw [this]
    simp [applyLockOp]

/-- The producer holds at most one lock. -/
theorem producerTaskOps_held (waits : List Nat) :
    ∀ h ∈ heldAfter [] (producerTaskOps waits),
      h = [] ∨ h = [.mtx] ∨ h = [.readCounterMtx] := by
  have hpacks : ∀ ws : List Nat,
      (∀ h ∈ heldAfter [] (ws.map producePackOps).flatten, h = [] ∨ h = [.mtx])
      ∧ finalHeld [] (ws.map producePackOps).flatten = [] := by
    intro ws
    induction ws with
    | nil => simp [heldAfter, finalHeld]
    | cons w rest ih =>
      have hw := producePackOps_held w
      simp only [List.map_cons, List.flatten_cons, heldAfter_append, finalHeld_append, hw.2]
      refine ⟨?_, ih.2⟩
      intro h hh
      rcases List.mem_append.mp hh with hh | hh
      · exact hw.1 h hh
      · exact ih.1 h hh
  intro h hh
  unfold producerTaskOps at hh
  rw [heldAfter_append, (hpacks waits).2] at hh
  rcases List.mem_append.mp hh with hh | hh
  · rcases (hpacks waits).1 h hh with hh | hh <;> simp [hh]
  · simp [heldAfter, applyLockOp] at hh
    rcases hh with hh | hh <;> simp [hh]

end LockLemmas

/-! ## Lock discipline: the claim -/

/-- C7 as stated fails. A consumer that reads `mProduceFinished` as set while the
ring is not empty calls `consumePack` before it releases `readCounterMtx` (lines
261-263): it then holds `readCounterMtx` together with `mRepo.mtx`, and later
together with `mFusionMtx` in each `pushMatch`. The pass is taken in a real run:
with one pair and one consumer that starts after the producer has returned, the
consumer reaches its scan while holding `readCounterMtx`. -/
theorem consumer_holds_two_locks :
    heldAfter [] (consumerTaskOps sampleCollaborators [finishedPass])
      = [[.readCounterMtx], [.mtx, .readCounterMtx], [.readCounterMtx],
         [.fusionMtx, .readCounterMtx], [.readCounterMtx],
         [.fusionMtx, .readCounterMtx], [.readCounterMtx],
         [.fusionMtx, .readCounterMtx], [.readCounterMtx],
         [.fusionMtx, .readCounterMtx], [.readCounterMtx], []]
    ∧ ¬ (∀ h ∈ heldAfter [] (consumerTaskOps sampleCollaborators [finishedPass]),
          h.length ≤ 1)
    ∧ (Pipeline.run (smallRing 1 .signed 1) lateConsumerSchedule
        (Pipeline.init (smallRing 1 .signed 1) [10])).map
        (fun s => (s.mProduceFinished, s.consumers.map ConsumerPc.holdsCounterMtx,
          s.dequeued.map (Option.map ReadPairPack.first)))
      = some (true, [true], [some (some 10)]) := by
  decide

/-- C7, amended. At every point of every execution of `consumerTask`, with its
calls of `consumePack`, `scanPairEnd` and `pushMatch`, the thread holds at most
two of the three locks, never `mRepo.mtx` together with `mFusionMtx`, and when
it holds two of them one is `readCounterMtx`; a consumer that has read
`mProduceFinished` as unset in every pass holds at most one lock; the producer
holds at most one lock at every point of `producerTask`. A pass in which the
consumer reads `mProduceFinished` as set while the ring is not empty calls
`consumePack` before it releases `readCounterMtx`, so the consumer takes
`mRepo.mtx` while holding `readCounterMtx`; and a consumer that has read
`mProduceFinished` as set in every pass holds `readCounterMtx` whenever it
holds a lock, so `mFusionMtx`, where a `pushMatch` takes it, is taken under
`readCounterMtx` too. -/
theorem lock_discipline {Read M : Type} (c : Collaborators Read M)
    (obs : List (IterationObs Read)) (waits : List Nat) :
    (∀ h ∈ heldAfter [] (consumerTaskOps c obs),
      h.length ≤ 2 ∧ (h.length = 2 → Lock.readCounterMtx ∈ h)
      ∧ ¬ (Lock.mtx ∈ h ∧ Lock.fusionMtx ∈ h))
    ∧ ((∀ it ∈ obs, it.mProduceFinished = false) →
        ∀ h ∈ heldAfter [] (consumerTaskOps c obs), h.length ≤ 1)
    ∧ (∀ h ∈ heldAfter [] (producerTaskOps waits), h.length ≤ 1)
    ∧ (∀ (it : IterationObs Read) (rest : List (IterationObs Read)),
        it.mProduceFinished = true → it.ringEmpty = false →
        (heldAfter [] (consumerTaskOps c (it :: rest))).take 2
          = [[.readCounterMtx], [.mtx, .readCounterMtx]])
    ∧ ((∀ it ∈ obs, it.mProduceFinished = true) →
        ∀ h ∈ heldAfter [] (consumerTaskOps c obs), h = [] ∨ Lock.readCounterMtx ∈ h) := by
  refine ⟨?_, ?_, ?_, ?_, ?_⟩
  · intro h hh
    rcases consumerTaskOps_held c obs h hh with hh | hh | hh | hh | hh | hh <;>
      subst hh <;> simp
  · intro hobs h hh
    rcases consumerTaskOps_held_unfinished c obs hobs h hh with hh | hh | hh | hh <;>
      subst hh <;> simp
  · intro h hh
    rcases producerTaskOps_held waits h hh with hh | hh | hh <;> subst hh <;> simp
  · intro it rest hfin hne
    exact consumerTaskOps_finished_pass c it rest hfin hne
  · intro hobs h hh
    rcases consumerTaskOps_held_finished c obs hobs h hh with hh | hh | hh | hh <;>
      subst hh <;> simp

/-- Witness of the amended C7: a pass taken while production is going on, in
which `consumePack` waits once and then scans the sample pack; a producer that
enqueues two packs and waits once for the second; and a pass taken after
production has finished, which takes `mRepo.mtx` under `readCounterMtx`. -/
theorem lock_discipline_witness :
    (∀ it ∈ [unfinishedPass], it.mProduceFinished = false)
    ∧ (∀ h ∈ heldAfter [] (consumerTaskOps sampleCollaborators [unfinishedPass]),
        h.length ≤ 1)
    ∧ heldAfter [] (consumerTaskOps sampleCollaborators [unfinishedPass])
        = [[.readCounterMtx], [], [.mtx], [], [.mtx], [], [.fusionMtx], [], [.fusionMtx], [],
           [.fusionMtx], [], [.fusionMtx], []]
    ∧ (∀ h ∈ heldAfter [] (producerTaskOps [0, 1]), h.length ≤ 1)
    ∧ finishedPass.mProduceFinished = true
    ∧ finishedPass.ringEmpty = false
    ∧ (heldAfter [] (consumerTaskOps sampleCollaborators [finishedPass])).take 2
        = [[.readCounterMtx], [.mtx, .readCounterMtx]] :=
  have hobs : ∀ it ∈ [unfinishedPass], it.mProduceFinished = false := by
    simp [unfinishedPass]
  have h := lock_discipline sampleCollaborators [unfinishedPass] [0, 1]
  ⟨hobs, h.2.1 hobs, by decide, h.2.2.1, rfl, rfl, h.2.2.2.1 finishedPass [] rfl rfl⟩

end GeneFuse
